import Mathlib

/-!
Verification of the game-tree search engine of the Final-Project-2025
repository: the TicTacToe and Connect4 game states (tictactoe.py,
connect4.py) and the two search strategies (player.py): alpha-beta
minimax (class ab_minimax) and Monte Carlo tree search (class MCTSPlayer).

The Python code is shallowly embedded: mutating methods become functions
returning the new state, Python floats are modelled as real (or, where the
code only ever produces them, rational/integer) numbers, and a Python
IndexError is modelled as an Option-none result.
-/

/-- The player letter: the Python strings "X" and "O". -/
inductive Letter where
  | X : Letter
  | O : Letter
deriving DecidableEq, Repr

/-- The expression `"O" if player == "X" else "X"` used throughout player.py. -/
def Letter.opp : Letter → Letter
  | .X => .O
  | .O => .X

@[simp] theorem Letter.opp_opp (p : Letter) : p.opp.opp = p := by cases p <;> rfl

theorem Letter.opp_ne (p : Letter) : p.opp ≠ p := by cases p <;> decide

/-- A board cell: none is the empty string " ", some p is that player's mark. -/
abbrev Cell := Option Letter

/-- Scores in ab_minimax.minimax: Python floats that are either an integer
or one of math.inf / -math.inf (the initial values of best, alpha, beta). -/
inductive EInt where
  | negInf : EInt
  | fin : Int → EInt
  | posInf : EInt
deriving DecidableEq, Repr

namespace EInt

/-- Boolean less-or-equal on scores, matching IEEE comparison of the
corresponding Python floats (no NaN ever arises in minimax). -/
def ble : EInt → EInt → Bool
  | negInf, _ => true
  | fin _, negInf => false
  | fin a, fin b => a ≤ b
  | fin _, posInf => true
  | posInf, posInf => true
  | posInf, _ => false

/-- Boolean strict less-than on scores. -/
def blt : EInt → EInt → Bool
  | negInf, negInf => false
  | negInf, _ => true
  | fin _, negInf => false
  | fin a, fin b => a < b
  | fin _, posInf => true
  | posInf, _ => false

instance : LE EInt := ⟨fun a b => ble a b = true⟩
instance : LT EInt := ⟨fun a b => blt a b = true⟩

theorem le_def (a b : EInt) : (a ≤ b) = (ble a b = true) := rfl

theorem lt_def (a b : EInt) : (a < b) = (blt a b = true) := rfl

instance : LinearOrder EInt where
  le_refl a := by cases a <;> simp [le_def, ble]
  le_trans a b c := by
    cases a <;> cases b <;> cases c <;> simp [le_def, ble] <;> omega
  le_antisymm a b := by
    cases a <;> cases b <;> simp [le_def, ble] <;> omega
  le_total a b := by
    cases a <;> cases b <;> simp [le_def, ble] <;> omega
  lt_iff_le_not_le a b := by
    cases a <;> cases b <;> simp [le_def, lt_def, ble, blt] <;> omega
  decidableLE a b := decEq (ble a b) true

instance (a b : EInt) : Decidable (a ≤ b) := decEq (ble a b) true

instance (a b : EInt) : Decidable (a < b) := decEq (blt a b) true

theorem bot_le' (a : EInt) : negInf ≤ a := by cases a <;> simp [le_def, ble]

theorem le_top' (a : EInt) : a ≤ posInf := by cases a <;> simp [le_def, ble]

theorem not_lt_negInf (a : EInt) : ¬ a < negInf := by
  cases a <;> simp [lt_def, blt]

theorem not_posInf_lt (a : EInt) : ¬ posInf < a := by
  cases a <;> simp [lt_def, blt]

theorem fin_lt_fin {a b : Int} : (fin a < fin b) ↔ a < b := by
  simp [lt_def, blt]

theorem fin_le_fin {a b : Int} : (fin a ≤ fin b) ↔ a ≤ b := by
  simp [le_def, ble]

end EInt

/-- Python list indexing semantics for `l[i]` with `i` a possibly negative
int: indices in `[0, len)` are used directly, indices in `[-len, 0)` count
from the end, anything else raises IndexError (modelled as none). -/
def pyIdx (len : Nat) (i : Int) : Option Nat :=
  if 0 ≤ i ∧ i < (len : Int) then some i.toNat
  else if -(len : Int) ≤ i ∧ i < 0 then some ((len : Int) + i).toNat
  else none

/-- Python slice semantics for `l[a:b]`: negative endpoints count from the
end and everything is clamped into `[0, len]`; an empty range gives `[]`. -/
def pySlice (l : List α) (a b : Int) : List α :=
  let n : Int := l.length
  let norm : Int → Nat := fun i => (max 0 (min n (if i < 0 then n + i else i))).toNat
  (l.take (norm b)).drop (norm a)

/-- The TicTacToe game state (tictactoe.py): a 9-cell board stored as a flat
list, the current winner, and the last move made. -/
structure TicTacToe where
  board : List Cell
  current_winner : Option Letter
  last_move : Option Int
deriving DecidableEq, Repr

namespace TicTacToe

/-- The constructor: empty 3x3 board, no winner, no last move. -/
def init : TicTacToe :=
  { board := List.replicate 9 none, current_winner := none, last_move := none }

/-- A well-formed state has the 9-cell board the Python class always keeps. -/
def WF (g : TicTacToe) : Prop := g.board.length = 9

/-- The method available_moves: indices of empty board cells, ascending. -/
def available_moves (g : TicTacToe) : List Int :=
  (g.board.enum.filter (fun p => p.2 = none)).map (fun p => Int.ofNat p.1)

/-- The method empty_squares: whether " " occurs in the board. -/
def empty_squares (g : TicTacToe) : Bool :=
  g.board.any (fun c => c = none)

/-- The method num_empty_squares: the count of " " cells. -/
def num_empty_squares (g : TicTacToe) : Nat :=
  g.board.countP (fun c => c = none)

/-- The method winner(square, letter), reading the board after the move was
placed.  Note square is the original (possibly negative) argument: the row
is a Python slice (empty for row_ind = -1, making all([]) hold), the column
and diagonal reads use indices that are in range for a 9-cell board. -/
def winner_check (board : List Cell) (square : Int) (letter : Letter) : Bool :=
  let row_ind := square.fdiv 3
  let row := pySlice board (row_ind * 3) ((row_ind + 1) * 3)
  if row.all (fun c => c = some letter) then true
  else
    let col_ind := (square.emod 3).toNat
    let column := [board.getD col_ind none, board.getD (col_ind + 3) none,
                   board.getD (col_ind + 6) none]
    if column.all (fun c => c = some letter) then true
    else if square.emod 2 = 0 then
      let diagonal1 := [board.getD 0 none, board.getD 4 none, board.getD 8 none]
      let diagonal2 := [board.getD 2 none, board.getD 4 none, board.getD 6 none]
      diagonal1.all (fun c => c = some letter) || diagonal2.all (fun c => c = some letter)
    else false

/-- The method make_move: `if self.board[square] == " "` (IndexError, hence
none, when square is outside `[-len, len)`), mutation of the board cell,
last_move, and the winner update.  The bool is the Python return value. -/
def make_move (g : TicTacToe) (square : Int) (letter : Letter) :
    Option (Bool × TicTacToe) :=
  match pyIdx g.board.length square with
  | none => none
  | some j =>
    if g.board.getD j (some letter) = none then
      let board' := g.board.set j (some letter)
      let w := if winner_check board' square letter then some letter
               else g.current_winner
      some (true, { board := board', current_winner := w, last_move := some square })
    else
      some (false, g)

/-- The state after a successful or failed (but not faulting) move; used by
the search players, which only ever pass moves from available_moves. -/
def apply_move (g : TicTacToe) (square : Int) (letter : Letter) : TicTacToe :=
  match make_move g square letter with
  | some (_, g') => g'
  | none => g

end TicTacToe

/-- The Connect4 game state (connect4.py): a 6x7 board as a list of rows,
the current winner, and the last move (column) made. -/
structure Connect4 where
  board : List (List Cell)
  current_winner : Option Letter
  last_move : Option Int
deriving DecidableEq, Repr

namespace Connect4

/-- The constructor / make_board: an empty 6x7 board. -/
def init : Connect4 :=
  { board := List.replicate 6 (List.replicate 7 none),
    current_winner := none, last_move := none }

/-- A well-formed state has the 6x7 board shape the Python class keeps. -/
def WF (g : Connect4) : Prop :=
  g.board.length = 6 ∧ ∀ row ∈ g.board, row.length = 7

/-- Cell read board[r][c]; the defaults are only reached on boards smaller
than the 6x7 shape the Python class always keeps. -/
def cellAt (board : List (List Cell)) (r c : Nat) : Cell :=
  (board.getD r []).getD c none

/-- The method available_moves: columns whose top cell board[0][col] is " ". -/
def available_moves (g : Connect4) : List Int :=
  ((List.range 7).filter (fun c => cellAt g.board 0 c = none)).map (fun c => Int.ofNat c)

/-- The method empty_squares: any " " anywhere on the board. -/
def empty_squares (g : Connect4) : Bool :=
  g.board.any (fun row => row.any (fun c => c = none))

/-- The method num_empty_squares: total count of " " cells. -/
def num_empty_squares (g : Connect4) : Nat :=
  (g.board.map (fun row => row.countP (fun c => c = none))).sum

/-- The inner check_direction of the method winner: walk from (r, c) in
direction (dr, dc) counting consecutive cells equal to letter, stopping at
the board edge.  The walk moves one step per call and stays inside the 6x7
bounds, so 13 units of fuel (supplied at the call site) are more than any
walk can use; the loop itself terminates within max(6, 7) steps. -/
def check_direction (board : List (List Cell)) (letter : Letter) (dr dc : Int) :
    Nat → Int → Int → Nat
  | 0, _, _ => 0
  | fuel + 1, r, c =>
    if 0 ≤ r ∧ r < 6 ∧ 0 ≤ c ∧ c < 7 ∧ cellAt board r.toNat c.toNat = some letter then
      1 + check_direction board letter dr dc fuel (r + dr) (c + dc)
    else 0

/-- The method winner(row, col, letter): four direction pairs, counting in
both directions from the just-placed cell and subtracting the double-counted
center; a run of at least 4 wins. -/
def winner_check (board : List (List Cell)) (r c : Int) (letter : Letter) : Bool :=
  [((0 : Int), (1 : Int)), (1, 0), (1, 1), (1, -1)].any (fun d =>
    check_direction board letter d.1 d.2 13 r c
      + check_direction board letter (-d.1) (-d.2) 13 r c - 1 ≥ 4)

/-- The method make_move: reject any col not in available_moves (no
mutation), otherwise drop into the lowest empty row of that column, update
last_move, and set the winner if the placement completes a run of 4.  The
bottom-up row scan is the Python loop `for row in range(self.rows-1,-1,-1)`;
if it finds no empty cell the method falls through and returns False. -/
def make_move (g : Connect4) (col : Int) (letter : Letter) : Bool × Connect4 :=
  if col ∈ available_moves g then
    let c := col.toNat
    match (List.range 6).reverse.find? (fun r => cellAt g.board r c = none) with
    | some r =>
      let row' := (g.board.getD r []).set c (some letter)
      let board' := g.board.set r row'
      let w := if winner_check board' (r : Int) col letter then some letter
               else g.current_winner
      (true, { board := board', current_winner := w, last_move := some col })
    | none => (false, g)
  else (false, g)

/-- The state after make_move, discarding the success flag. -/
def apply_move (g : Connect4) (col : Int) (letter : Letter) : Connect4 :=
  (make_move g col letter).2

end Connect4

/-! Helper lemmas about lists, used to reason about board updates. -/

/-- Exchanging one list element exchanges its contribution to countP; the
read of the old element may use any default since the index is in range. -/
theorem countP_set_exchange (p : α → Bool) :
    ∀ (l : List α) (j : Nat) (x d : α), j < l.length →
      (l.set j x).countP p + (if p (l.getD j d) then 1 else 0)
        = l.countP p + (if p x then 1 else 0) := by
  intro l
  induction l with
  | nil => intro j x d h; simp at h
  | cons a t ih =>
    intro j x d h
    cases j with
    | zero => simp [List.countP_cons]; omega
    | succ j =>
      have hset : (a :: t).set (j + 1) x = a :: t.set j x := rfl
      rw [hset]
      simp only [List.countP_cons, List.getD_cons_succ]
      have := ih j x d (by simpa using h)
      omega

/-- Exchanging one list element exchanges its contribution to a mapped sum. -/
theorem sum_map_set_exchange (f : α → Nat) :
    ∀ (l : List α) (j : Nat) (x d : α), j < l.length →
      ((l.set j x).map f).sum + f (l.getD j d) = (l.map f).sum + f x := by
  intro l
  induction l with
  | nil => intro j x d h; simp at h
  | cons a t ih =>
    intro j x d h
    cases j with
    | zero => simp; omega
    | succ j =>
      have hset : (a :: t).set (j + 1) x = a :: t.set j x := rfl
      rw [hset]
      simp only [List.map_cons, List.sum_cons, List.getD_cons_succ]
      have := ih j x d (by simpa using h)
      omega

/-- Reading the just-set index of a list, with any default. -/
theorem getD_set_self (l : List α) (j : Nat) (x d : α) (h : j < l.length) :
    (l.set j x).getD j d = x := by
  rw [List.getD_eq_getElem?_getD, List.getElem?_set_eq_of_lt _ h]
  rfl

/-- Reading an index other than the just-set one, with any default. -/
theorem getD_set_ne (l : List α) {i j : Nat} (x d : α) (h : i ≠ j) :
    (l.set i x).getD j d = l.getD j d := by
  rw [List.getD_eq_getElem?_getD, List.getElem?_set_ne h, ← List.getD_eq_getElem?_getD]

/-- Turning one true-predicate member false shortens a duplicate-free
filter by exactly one. -/
theorem length_filter_update {l : List Nat} (hl : l.Nodup) {c : Nat} (hc : c ∈ l)
    {p q : Nat → Bool} (hpq : ∀ x ∈ l, x ≠ c → p x = q x)
    (hp : p c = true) (hq : q c = false) :
    (l.filter q).length + 1 = (l.filter p).length := by
  induction l with
  | nil => simp at hc
  | cons a t ih =>
    by_cases hac : a = c
    · subst hac
      have hcnot : a ∉ t := (List.nodup_cons.mp hl).1
      have hfix : t.filter p = t.filter q := by
        apply List.filter_congr
        intro x hx
        exact hpq x (List.mem_cons_of_mem _ hx) (fun hxc => hcnot (hxc ▸ hx))
      simp [List.filter_cons, hp, hq, hfix]
    · have hct : c ∈ t := by
        rcases List.mem_cons.mp hc with h | h
        · exact absurd h.symm hac
        · exact h
      have hpa : p a = q a := hpq a (List.mem_cons_self _ _) hac
      have hih := ih (List.nodup_cons.mp hl).2 hct
        (fun x hx hxc => hpq x (List.mem_cons_of_mem _ hx) hxc)
      by_cases h : p a = true
      · simp [List.filter_cons, h, hpa ▸ h, hih]
      · have h' : q a = false := by rw [← hpa]; simpa using h
        simp [List.filter_cons, h, h', hih]

namespace TicTacToe

/-- Membership in available_moves: exactly the in-range indices of empty cells. -/
theorem mem_available_moves {g : TicTacToe} {i : Int} :
    i ∈ available_moves g ↔ ∃ j : Nat, i = (j : Int) ∧ g.board[j]? = some none := by
  unfold available_moves
  constructor
  · intro h
    rcases List.mem_map.mp h with ⟨⟨j, x⟩, hmem, rfl⟩
    rcases List.mem_filter.mp hmem with ⟨henum, hx⟩
    refine ⟨j, rfl, ?_⟩
    have := List.mk_mem_enum_iff_getElem?.mp henum
    simp only [decide_eq_true_eq] at hx
    rw [this]; exact congrArg some hx
  · rintro ⟨j, rfl, hj⟩
    refine List.mem_map.mpr ⟨(j, none), List.mem_filter.mpr ⟨?_, by simp⟩, rfl⟩
    exact List.mk_mem_enum_iff_getElem?.mpr hj

/-- The number of available moves is the number of empty squares. -/
theorem length_available_eq_num_empty (g : TicTacToe) :
    (available_moves g).length = num_empty_squares g := by
  unfold available_moves num_empty_squares
  rw [List.length_map]
  have : ∀ (l : List Cell) (n : Nat),
      ((List.enumFrom n l).filter (fun p => p.2 = none)).length
        = l.countP (fun c => c = none) := by
    intro l
    induction l with
    | nil => intro n; simp
    | cons a t ih =>
      intro n
      simp only [List.enumFrom, List.filter_cons, List.countP_cons]
      by_cases h : a = none
      · simp [h, ih]
      · simp [h, ih]
  exact this g.board 0

end TicTacToe

/-! Claim C6: behaviour of make_move on moves outside available_moves. -/

/-- C6 counterexample: the claim says every integer move not in
available_moves() returns false, leaves the state unchanged and never
raises.  For TicTacToe, the move -1 on a fresh board is not in
available_moves, yet make_move returns True, writes the mark into cell 8
(Python negative indexing) and even declares the mover the winner (the
row check slices board[-3:0], an empty list, and all([]) is True); and the
move 9 raises IndexError (modelled as none). -/
theorem C6_counterexample :
    (-1 : Int) ∉ TicTacToe.available_moves TicTacToe.init
    ∧ TicTacToe.make_move TicTacToe.init (-1) .X
        = some (true, { board := List.replicate 8 none ++ [some Letter.X],
                        current_winner := some Letter.X, last_move := some (-1) })
    ∧ TicTacToe.make_move TicTacToe.init 9 .X = none := by decide

/-- C6 (amended): Connect4.make_move rejects every integer move outside
available_moves (false, no mutation, no fault).  TicTacToe.make_move does
so only for in-range occupied squares; squares outside [-9, 9) raise
IndexError (modelled none), and negative squares alias from the end of the
board (see the counterexample). -/
theorem C6_amended :
    (∀ (g : Connect4) (col : Int) (L : Letter),
        col ∉ Connect4.available_moves g → Connect4.make_move g col L = (false, g))
    ∧ (∀ (g : TicTacToe) (sq : Int) (L : Letter),
        0 ≤ sq → sq < (g.board.length : Int) → sq ∉ TicTacToe.available_moves g →
        TicTacToe.make_move g sq L = some (false, g))
    ∧ (∀ (g : TicTacToe) (sq : Int) (L : Letter),
        sq < -(g.board.length : Int) ∨ (g.board.length : Int) ≤ sq →
        TicTacToe.make_move g sq L = none) := by
  refine ⟨?_, ?_, ?_⟩
  · intro g col L h
    unfold Connect4.make_move
    rw [if_neg h]
  · intro g sq L h0 h1 hna
    unfold TicTacToe.make_move
    have hidx : pyIdx g.board.length sq = some sq.toNat := by
      unfold pyIdx
      rw [if_pos ⟨h0, h1⟩]
    have hlt : sq.toNat < g.board.length := by omega
    have hne : ¬ g.board.getD sq.toNat (some L) = none := by
      intro hcell
      apply hna
      apply TicTacToe.mem_available_moves.mpr
      refine ⟨sq.toNat, (Int.toNat_of_nonneg h0).symm, ?_⟩
      rw [List.getD_eq_getElem?_getD, List.getElem?_eq_getElem hlt] at hcell
      rw [List.getElem?_eq_getElem hlt]
      simpa using hcell
    rw [hidx]
    dsimp only
    rw [if_neg hne]
  · intro g sq L h
    unfold TicTacToe.make_move
    have hidx : pyIdx g.board.length sq = none := by
      unfold pyIdx
      rw [if_neg (by omega), if_neg (by omega)]
    rw [hidx]

/-- C6 amended witness at concrete inputs. -/
theorem C6_amended_witness :
    Connect4.make_move Connect4.init (-3) .X = (false, Connect4.init)
    ∧ TicTacToe.make_move
        { TicTacToe.init with board := (TicTacToe.init.board.set 4 (some .O)) } 4 .X
      = some (false, { TicTacToe.init with board := (TicTacToe.init.board.set 4 (some .O)) })
    ∧ TicTacToe.make_move TicTacToe.init 12 .X = none := by
  refine ⟨C6_amended.1 _ _ _ (by decide), C6_amended.2.1 _ _ _ (by decide) (by decide) (by decide),
    C6_amended.2.2 _ _ _ (by decide)⟩

/-! Claim C7: whether a set winner can ever change. -/

/-- A reachable TicTacToe position in which X has already won the top row
(X at 0, 1, 2, O at 3, 4) but O still has an open winning reply at 5. -/
def wonBoard : TicTacToe :=
  { board := [some .X, some .X, some .X, some .O, some .O, none, none, none, none],
    current_winner := some .X, last_move := some 2 }

/-- C7 counterexample: the claim says an already-set winner is never
changed to a different value by make_move.  But make_move performs no
game-over check and overwrites current_winner whenever the new move
completes a line for the mover: from wonBoard (winner X), O playing
square 5 completes the middle row and current_winner becomes O. -/
theorem C7_counterexample :
    wonBoard.current_winner = some Letter.X
    ∧ (5 : Int) ∈ TicTacToe.available_moves wonBoard
    ∧ (TicTacToe.make_move wonBoard 5 .O).map (fun r => r.2.current_winner)
        = some (some Letter.O) := by decide

/-- C7 (amended): make_move never resets a winner to none; it either
preserves current_winner or overwrites it with the letter of the mover
whose move just completed a line (so a second winner can overwrite the
first, as in the counterexample, but none is only restored by building a
fresh state / Connect4.reset). -/
theorem C7_amended :
    (∀ (g : TicTacToe) (sq : Int) (L : Letter) (b : Bool) (g' : TicTacToe),
        TicTacToe.make_move g sq L = some (b, g') →
        g'.current_winner = g.current_winner ∨ g'.current_winner = some L)
    ∧ (∀ (g : Connect4) (col : Int) (L : Letter),
        (Connect4.make_move g col L).2.current_winner = g.current_winner
        ∨ (Connect4.make_move g col L).2.current_winner = some L) := by
  constructor
  · intro g sq L b g' h
    unfold TicTacToe.make_move at h
    cases hidx : pyIdx g.board.length sq with
    | none => rw [hidx] at h; exact absurd h (by simp)
    | some j =>
      rw [hidx] at h
      dsimp only at h
      by_cases hc : g.board.getD j (some L) = none
      · rw [if_pos hc] at h
        by_cases hw : TicTacToe.winner_check (g.board.set j (some L)) sq L
        · right
          cases h
          simp [hw]
        · left
          cases h
          simp [hw]
      · rw [if_neg hc] at h
        cases h
        left; rfl
  · intro g col L
    unfold Connect4.make_move
    by_cases hav : col ∈ Connect4.available_moves g
    · rw [if_pos hav]
      dsimp only
      cases hfind : (List.range 6).reverse.find?
          (fun r => Connect4.cellAt g.board r col.toNat = none) with
      | none => left; rfl
      | some r =>
        by_cases hw : Connect4.winner_check
            (g.board.set r ((g.board.getD r []).set col.toNat (some L))) (r : Int) col L
        · right
          simp only [List.getD_eq_getElem?_getD] at hw
          simp [hw]
        · left
          simp only [List.getD_eq_getElem?_getD] at hw
          simp [hw]
    · rw [if_neg hav]
      left; rfl

/-- C7 amended witness at concrete inputs. -/
theorem C7_amended_witness :
    (TicTacToe.init.current_winner = TicTacToe.init.current_winner
      ∨ TicTacToe.init.current_winner = some Letter.X)
    ∧ ((Connect4.make_move Connect4.init 0 .X).2.current_winner
         = Connect4.init.current_winner
       ∨ (Connect4.make_move Connect4.init 0 .X).2.current_winner = some Letter.X) :=
  ⟨C7_amended.1 TicTacToe.init 4 .X true
      { TicTacToe.init with board := TicTacToe.init.board.set 4 (some .X),
                            last_move := some 4 } (by decide),
   C7_amended.2 Connect4.init 0 .X⟩

/-- An index produced by pyIdx is always in range. -/
theorem pyIdx_lt {len : Nat} {i : Int} {j : Nat} (h : pyIdx len i = some j) : j < len := by
  unfold pyIdx at h
  split at h
  · cases h; omega
  · split at h
    · cases h; omega
    · cases h

namespace TicTacToe

/-- Characterization of a successful TicTacToe.make_move. -/
theorem make_move_success {g g' : TicTacToe} {sq : Int} {L : Letter}
    (h : make_move g sq L = some (true, g')) :
    ∃ j : Nat, j < g.board.length ∧ pyIdx g.board.length sq = some j
      ∧ g.board.getD j (some L) = none
      ∧ g'.board = g.board.set j (some L) := by
  unfold make_move at h
  cases hidx : pyIdx g.board.length sq with
  | none => rw [hidx] at h; exact absurd h (by simp)
  | some j =>
    rw [hidx] at h
    dsimp only at h
    by_cases hc : g.board.getD j (some L) = none
    · rw [if_pos hc] at h
      refine ⟨j, pyIdx_lt hidx, rfl, hc, ?_⟩
      cases h
      rfl
    · rw [if_neg hc] at h
      simp at h

end TicTacToe

namespace Connect4

/-- Membership in Connect4.available_moves: a column index in [0, 7) whose
top cell is empty. -/
theorem mem_available {g : Connect4} {col : Int} (h : col ∈ available_moves g) :
    0 ≤ col ∧ col.toNat < 7 ∧ cellAt g.board 0 col.toNat = none := by
  unfold available_moves at h
  simp only [List.mem_map, List.mem_filter, List.mem_range, decide_eq_true_eq] at h
  rcases h with ⟨c, ⟨hc7, hcell⟩, rfl⟩
  exact ⟨Int.ofNat_nonneg c, by simpa using hc7, by simpa using hcell⟩

/-- Characterization of a successful Connect4.make_move. -/
theorem c4_make_move_success {g g' : Connect4} {col : Int} {L : Letter}
    (h : make_move g col L = (true, g')) :
    col ∈ available_moves g
    ∧ ∃ r : Nat, r < 6
      ∧ (List.range 6).reverse.find? (fun r => cellAt g.board r col.toNat = none) = some r
      ∧ cellAt g.board r col.toNat = none
      ∧ g'.board = g.board.set r ((g.board.getD r []).set col.toNat (some L)) := by
  unfold make_move at h
  by_cases hav : col ∈ available_moves g
  · rw [if_pos hav] at h
    dsimp only at h
    cases hfind : (List.range 6).reverse.find?
        (fun r => cellAt g.board r col.toNat = none) with
    | none => rw [hfind] at h; exact absurd h (by simp)
    | some r =>
      rw [hfind] at h
      refine ⟨hav, r, ?_, rfl, ?_, ?_⟩
      · have hr := List.mem_of_find?_eq_some hfind
        simpa using hr
      · have := List.find?_some hfind
        simpa using this
      · cases h
        rfl
  · rw [if_neg hav] at h
    exact absurd h (by simp)

end Connect4

/-! Claim C8: effect of make_move on the size of available_moves. -/

/-- C8 counterexample: the claim says every successful applyMove shrinks
availableMoves by exactly one in both games.  In Connect4 a successful
move into an empty column fills the bottom row, not the top, so all 7
columns stay available. -/
theorem C8_counterexample :
    (Connect4.make_move Connect4.init 0 .X).1 = true
    ∧ (Connect4.available_moves (Connect4.make_move Connect4.init 0 .X).2).length
        = (Connect4.available_moves Connect4.init).length := by decide

/-- C8 (amended): in TicTacToe each successful make_move removes exactly
one available move, and a failed one returns the state unchanged.  In
Connect4 a successful make_move always removes exactly one empty square,
but it shrinks available_moves by one exactly when the piece lands in the
top row of its column (the column becomes full); otherwise available_moves
keeps its length.  A failed Connect4 move leaves the state unchanged. -/
theorem C8_amended :
    (∀ (g g' : TicTacToe) (sq : Int) (L : Letter),
        TicTacToe.make_move g sq L = some (true, g') →
        (TicTacToe.available_moves g').length + 1 = (TicTacToe.available_moves g).length)
    ∧ (∀ (g g' : TicTacToe) (sq : Int) (L : Letter),
        TicTacToe.make_move g sq L = some (false, g') → g' = g)
    ∧ (∀ (g g' : Connect4) (col : Int) (L : Letter), Connect4.WF g →
        Connect4.make_move g col L = (true, g') →
        Connect4.num_empty_squares g' + 1 = Connect4.num_empty_squares g
        ∧ (if Connect4.cellAt g'.board 0 col.toNat = none
           then (Connect4.available_moves g').length = (Connect4.available_moves g).length
           else (Connect4.available_moves g').length + 1
                  = (Connect4.available_moves g).length))
    ∧ (∀ (g : Connect4) (col : Int) (L : Letter),
        (Connect4.make_move g col L).1 = false → (Connect4.make_move g col L).2 = g) := by
  refine ⟨?_, ?_, ?_, ?_⟩
  · intro g g' sq L h
    rcases TicTacToe.make_move_success h with ⟨j, hj, _, hcell, hb⟩
    rw [TicTacToe.length_available_eq_num_empty, TicTacToe.length_available_eq_num_empty]
    unfold TicTacToe.num_empty_squares
    have hx := countP_set_exchange (fun c => c = none) g.board j (some L) (some L) hj
    rw [hcell] at hx
    simp only [decide_True, decide_False, if_true, if_false] at hx
    rw [hb]
    simpa using hx
  · intro g g' sq L h
    unfold TicTacToe.make_move at h
    cases hidx : pyIdx g.board.length sq with
    | none => rw [hidx] at h; exact absurd h (by simp)
    | some j =>
      rw [hidx] at h
      dsimp only at h
      by_cases hc : g.board.getD j (some L) = none
      · rw [if_pos hc] at h
        exact absurd h (by simp)
      · rw [if_neg hc] at h
        cases h
        rfl
  · intro g g' col L hwf h
    rcases Connect4.c4_make_move_success h with ⟨hav, r, hr6, _, hcell, hb⟩
    rcases Connect4.mem_available hav with ⟨_, hc7, htop⟩
    have hblen : r < g.board.length := by rw [hwf.1]; exact hr6
    have hrowlen : (g.board.getD r []).length = 7 := by
      apply hwf.2
      rw [List.getD_eq_getElem (l := g.board) [] hblen]
      exact List.getElem_mem hblen
    have hcell' : (g.board.getD r []).getD col.toNat (some L) = none := by
      unfold Connect4.cellAt at hcell
      rw [List.getD_eq_getElem (l := g.board.getD r []) (some L) (by rw [hrowlen]; exact hc7)]
      rw [List.getD_eq_getElem (l := g.board.getD r []) none (by rw [hrowlen]; exact hc7)] at hcell
      exact hcell
    constructor
    · have hsum := sum_map_set_exchange (fun row => row.countP (fun c => c = none))
        g.board r ((g.board.getD r []).set col.toNat (some L)) [] hblen
      have hrow := countP_set_exchange (fun c => c = none)
        (g.board.getD r []) col.toNat (some L) (some L) (by rw [hrowlen]; exact hc7)
      rw [hcell'] at hrow
      have hrow' : ((g.board.getD r []).set col.toNat (some L)).countP (fun c => c = none) + 1
          = (g.board.getD r []).countP (fun c => c = none) := by
        simpa using hrow
      unfold Connect4.num_empty_squares
      rw [hb]
      dsimp only at hsum
      omega
    · by_cases hr0 : r = 0
      · subst hr0
        have hset0 : Connect4.cellAt g'.board 0 col.toNat = some L := by
          rw [hb]
          unfold Connect4.cellAt
          rw [getD_set_self g.board 0 _ [] hblen]
          rw [getD_set_self _ col.toNat _ none (by rw [hrowlen]; exact hc7)]
        rw [if_neg (by rw [hset0]; simp)]
        unfold Connect4.available_moves
        rw [List.length_map, List.length_map]
        apply length_filter_update (List.nodup_range 7) (List.mem_range.mpr hc7)
          (p := fun x => Connect4.cellAt g.board 0 x = none)
          (q := fun x => Connect4.cellAt g'.board 0 x = none)
        · intro x _ hxc
          have : Connect4.cellAt g'.board 0 x = Connect4.cellAt g.board 0 x := by
            rw [hb]
            unfold Connect4.cellAt
            rw [getD_set_self g.board 0 _ [] hblen]
            rw [getD_set_ne _ _ none (fun hh => hxc hh.symm)]
          rw [this]
        · simpa using htop
        · rw [hset0]; simp
      · have hsame : ∀ x : Nat, Connect4.cellAt g'.board 0 x = Connect4.cellAt g.board 0 x := by
          intro x
          rw [hb]
          unfold Connect4.cellAt
          rw [getD_set_ne g.board _ [] hr0]
        rw [if_pos (by rw [hsame]; exact htop)]
        unfold Connect4.available_moves
        rw [List.length_map, List.length_map]
        congr 1
        apply List.filter_congr
        intro x _
        rw [hsame x]
  · intro g col L h
    unfold Connect4.make_move at h ⊢
    by_cases hav : col ∈ Connect4.available_moves g
    · rw [if_pos hav] at h ⊢
      dsimp only at h ⊢
      cases hfind : (List.range 6).reverse.find?
          (fun r => Connect4.cellAt g.board r col.toNat = none) with
      | none => rfl
      | some r =>
        rw [hfind] at h
        exact absurd h (by simp)
    · rw [if_neg hav]

/-- C8 amended witness at concrete inputs. -/
theorem C8_amended_witness :
    (TicTacToe.available_moves
        { TicTacToe.init with board := TicTacToe.init.board.set 4 (some Letter.X),
                              last_move := some 4 }).length + 1
      = (TicTacToe.available_moves TicTacToe.init).length
    ∧ Connect4.num_empty_squares (Connect4.make_move Connect4.init 0 .X).2 + 1
        = Connect4.num_empty_squares Connect4.init := by
  constructor
  · exact C8_amended.1 TicTacToe.init _ 4 .X (by decide)
  · exact (C8_amended.2.2.1 Connect4.init (Connect4.make_move Connect4.init 0 .X).2 0 .X
      (by constructor <;> decide) (by decide)).1

/-! Claim C10: make_move performs no game-over check. -/

/-- C10: in both games make_move ignores current_winner entirely: with a
winner already set, any move still in available_moves succeeds and places
a mark, and the success flag is unchanged if the winner field is erased. -/
theorem C10_claim :
    (∀ (g : TicTacToe) (sq : Int) (L : Letter), g.current_winner ≠ none →
        sq ∈ TicTacToe.available_moves g →
        ∃ g', TicTacToe.make_move g sq L = some (true, g')
          ∧ g'.board.getD sq.toNat none = some L)
    ∧ (∀ (g : Connect4) (col : Int) (L : Letter), Connect4.WF g →
        g.current_winner ≠ none → col ∈ Connect4.available_moves g →
        (Connect4.make_move g col L).1 = true
        ∧ ∃ r, r < 6
            ∧ Connect4.cellAt (Connect4.make_move g col L).2.board r col.toNat = some L)
    ∧ (∀ (g : TicTacToe) (sq : Int) (L : Letter),
        (TicTacToe.make_move g sq L).map Prod.fst
          = (TicTacToe.make_move { g with current_winner := none } sq L).map Prod.fst)
    ∧ (∀ (g : Connect4) (col : Int) (L : Letter),
        (Connect4.make_move g col L).1
          = (Connect4.make_move { g with current_winner := none } col L).1) := by
  refine ⟨?_, ?_, ?_, ?_⟩
  · intro g sq L _ hmem
    rcases TicTacToe.mem_available_moves.mp hmem with ⟨j, rfl, hj⟩
    have hlt : j < g.board.length := (List.getElem?_eq_some.mp hj).1
    have hcell : g.board.getD j (some L) = none := by
      rw [List.getD_eq_getElem?_getD, hj]
      rfl
    unfold TicTacToe.make_move
    have hidx : pyIdx g.board.length (j : Int) = some j := by
      unfold pyIdx
      rw [if_pos ⟨by omega, by omega⟩]
      simp
    rw [hidx]
    dsimp only
    rw [if_pos hcell]
    refine ⟨_, rfl, ?_⟩
    have hton : ((j : Int)).toNat = j := by simp
    rw [hton, getD_set_self _ _ _ _ hlt]
  · intro g col L hwf _ hav
    rcases Connect4.mem_available hav with ⟨_, hc7, htop⟩
    unfold Connect4.make_move
    rw [if_pos hav]
    dsimp only
    cases hfind : (List.range 6).reverse.find?
        (fun r => Connect4.cellAt g.board r col.toNat = none) with
    | none =>
      exfalso
      have := List.find?_eq_none.mp hfind 0 (by simp)
      simp [htop] at this
    | some r =>
      have hr6 : r < 6 := by simpa using List.mem_of_find?_eq_some hfind
      have hblen : r < g.board.length := by rw [hwf.1]; exact hr6
      have hrowlen : (g.board.getD r []).length = 7 := by
        apply hwf.2
        rw [List.getD_eq_getElem (l := g.board) [] hblen]
        exact List.getElem_mem hblen
      refine ⟨rfl, r, hr6, ?_⟩
      unfold Connect4.cellAt
      rw [getD_set_self g.board r _ [] hblen]
      rw [getD_set_self _ col.toNat _ none (by rw [hrowlen]; exact hc7)]
  · intro g sq L
    unfold TicTacToe.make_move
    dsimp only
    cases hidx : pyIdx g.board.length sq with
    | none => rfl
    | some j =>
      dsimp only
      by_cases hc : g.board.getD j (some L) = none
      · rw [if_pos hc, if_pos hc]
        rfl
      · rw [if_neg hc, if_neg hc]
        rfl
  · intro g col L
    unfold Connect4.make_move
    dsimp only
    have havail : Connect4.available_moves
        { board := g.board, current_winner := none, last_move := g.last_move }
        = Connect4.available_moves g := rfl
    rw [havail]
    by_cases hav : col ∈ Connect4.available_moves g
    · rw [if_pos hav, if_pos hav]
      cases hfind : (List.range 6).reverse.find?
          (fun r => Connect4.cellAt g.board r col.toNat = none) with
      | none => rfl
      | some r => rfl
    · rw [if_neg hav, if_neg hav]

/-- C10 witness at concrete inputs: on wonBoard (winner X), the open
square 5 still succeeds for O and places the mark, and on a Connect4
position with winner X column 3 still succeeds. -/
theorem C10_claim_witness :
    (∃ g', TicTacToe.make_move wonBoard 5 .O = some (true, g')
        ∧ g'.board.getD (5 : Int).toNat none = some Letter.O)
    ∧ ((Connect4.make_move
          { Connect4.init with current_winner := some Letter.X } 3 .O).1 = true) := by
  constructor
  · exact C10_claim.1 wonBoard 5 .O (by decide) (by decide)
  · exact (C10_claim.2.1 { Connect4.init with current_winner := some Letter.X } 3 .O
      (by constructor <;> decide) (by decide) (by decide)).1

/-! The alpha-beta minimax player (player.py class ab_minimax).  It only
uses the methods shared by both game classes, so it is embedded over an
abstract interface record. -/

/-- The game-state operations ab_minimax calls (Python duck typing):
available_moves, copy+make_move, current_winner, empty_squares,
num_empty_squares. -/
structure GameI (S : Type) where
  avail : S → List Int
  applyM : S → Int → Letter → S
  winner : S → Option Letter
  emptyB : S → Bool
  numEmpty : S → Nat

/-- TicTacToe as a GameI. -/
def TicTacToe.game : GameI TicTacToe where
  avail := TicTacToe.available_moves
  applyM := TicTacToe.apply_move
  winner := fun g => g.current_winner
  emptyB := TicTacToe.empty_squares
  numEmpty := TicTacToe.num_empty_squares

/-- Connect4 as a GameI. -/
def Connect4.game : GameI Connect4 where
  avail := Connect4.available_moves
  applyM := Connect4.apply_move
  winner := fun g => g.current_winner
  emptyB := Connect4.empty_squares
  numEmpty := Connect4.num_empty_squares

namespace ab_minimax

/-- The method evaluate_state: static win/loss/draw evaluation. -/
def evaluate_state (G : GameI S) (L : Letter) (state : S) : Int :=
  if G.winner state = some L then 1
  else if G.winner state = some L.opp then -1
  else 0

/-- The for-loop of minimax over the available moves.  eval col a b is the
recursive minimax call on the state after col (it receives the windows
current at that iteration).  isMax tells whether player == max_player.
Faithful to the source: best is replaced only on strict improvement, alpha
(resp. beta) is then widened with the new best, and `if beta <= alpha:
break` stops the loop after the update. -/
def ab_loop (isMax : Bool) (eval : Int → EInt → EInt → Option Int × EInt) :
    List Int → (Option Int × EInt) → EInt → EInt → Option Int × EInt
  | [], best, _, _ => best
  | col :: rest, best, alpha, beta =>
    let sim : Option Int × EInt := (some col, (eval col alpha beta).2)
    if isMax then
      let best' : Option Int × EInt := if best.2 < sim.2 then sim else best
      let alpha' : EInt := max alpha best'.2
      if beta ≤ alpha' then best' else ab_loop isMax eval rest best' alpha' beta
    else
      let best' : Option Int × EInt := if sim.2 < best.2 then sim else best
      let beta' : EInt := min beta best'.2
      if beta' ≤ alpha then best' else ab_loop isMax eval rest best' alpha beta'

/-- The method minimax(state, player, alpha, beta, depth, max_depth), on
fuel: terminal checks in source order (opponent just won, board full,
depth cutoff), then the alpha-beta loop one ply deeper with the opposite
mover.  The fuel-0 fallback is unreachable whenever fuel ≥ numEmpty state,
because every recursive call is on a state with one more mark. -/
def minimax (G : GameI S) (L : Letter) :
    Nat → S → Letter → EInt → EInt → Nat → Nat → Option Int × EInt
  | fuel, state, player, alpha, beta, depth, max_depth =>
    let other_player := player.opp
    if G.winner state = some other_player then
      (none, .fin (if other_player = L then (G.numEmpty state : Int) + 1
                   else -((G.numEmpty state : Int) + 1)))
    else if G.emptyB state = false then (none, .fin 0)
    else if depth = max_depth then (none, .fin (evaluate_state G L state))
    else
      match fuel with
      | 0 => (none, .fin 0)
      | fuel' + 1 =>
        ab_loop (player = L)
          (fun col a b =>
            minimax G L fuel' (G.applyM state col player) player.opp a b
              (depth + 1) max_depth)
          (G.avail state)
          (none, if player = L then .negInf else .posInf)
          alpha beta

/-- The minimax call exactly as get_move_values makes it: default
arguments alpha = -inf, beta = +inf, depth = 0, max_depth = 4 (the
constructor's self.max_depth is not passed), with enough fuel. -/
def minimax_run (G : GameI S) (L : Letter) (state : S) (player : Letter) :
    Option Int × EInt :=
  minimax G L (G.numEmpty state) state player .negInf .posInf 0 4

/-- The method get_move_values: pre-apply each available move for
self.letter, then evaluate self.minimax(temp_game, self.letter) — the
mover handed to minimax is the searching player again. -/
def get_move_values (G : GameI S) (L : Letter) (game : S) : List (Int × EInt) :=
  (G.avail game).map (fun move => (move, (minimax_run G L (G.applyM game move L) L).2))

/-- Python max(d, key=d.get) over an insertion-ordered dict: the first key
attaining the maximal value; raises (none) on an empty dict. -/
def argmax_go (k : Int) (v : EInt) : List (Int × EInt) → Int
  | [] => k
  | (k2, v2) :: rest => if v < v2 then argmax_go k2 v2 rest else argmax_go k v rest

/-- Python max over the move_values dict. -/
def dict_argmax : List (Int × EInt) → Option Int
  | [] => none
  | (k, v) :: rest => some (argmax_go k v rest)

/-- The method get_move: best_move = max(move_values, key=move_values.get). -/
def get_move (G : GameI S) (L : Letter) (game : S) : Option Int :=
  dict_argmax (get_move_values G L game)

end ab_minimax

namespace ab_minimax

/-- The ab_minimax constructor state: letter and max_depth (default 3). -/
structure player where
  letter : Letter
  max_depth : Nat := 3

/-- get_move_values as invoked on an ab_minimax instance.  The stored
self.max_depth is never read: the minimax call inside get_move_values uses
the bare default max_depth = 4. -/
def player_get_move_values (p : player) (G : GameI S) (game : S) : List (Int × EInt) :=
  get_move_values G p.letter game

/-- The behaviour claim C4 (and the class docstring) describe: the depth
bound supplied to the constructor is the one the search actually uses. -/
def get_move_values_depth (G : GameI S) (L : Letter) (md : Nat) (game : S) :
    List (Int × EInt) :=
  (G.avail game).map (fun move =>
    (move, (minimax G L (G.numEmpty (G.applyM game move L))
      (G.applyM game move L) L .negInf .posInf 0 md).2))

/-- The handoff claim C5 describes: after pre-applying the searching
player's candidate move, evaluate the resulting state with the opponent
to move. -/
def get_move_values_opp (G : GameI S) (L : Letter) (game : S) : List (Int × EInt) :=
  (G.avail game).map (fun move =>
    (move, (minimax_run G L (G.applyM game move L) L.opp).2))

/-- The key k is the first key of the association list attaining the
maximal value: what Python max(d, key=d.get) returns on a nonempty dict. -/
def IsFirstArgmax (l : List (Int × EInt)) (k : Int) : Prop :=
  ∃ l1 v l2, l = l1 ++ (k, v) :: l2
    ∧ (∀ p ∈ l, p.2 ≤ v) ∧ (∀ p ∈ l1, p.2 < v)

/-- Specification of the running-max fold behind dict_argmax: either the
seed survives (nothing in the tail beats it strictly) or the result is the
first entry of the tail that strictly exceeds everything before it and is
maximal overall. -/
theorem argmax_go_spec (k : Int) (v : EInt) (rest : List (Int × EInt)) :
    (argmax_go k v rest = k ∧ (∀ p ∈ rest, p.2 ≤ v))
    ∨ (∃ l1 p l2, rest = l1 ++ p :: l2 ∧ argmax_go k v rest = p.1
        ∧ v < p.2 ∧ (∀ q ∈ rest, q.2 ≤ p.2) ∧ (∀ q ∈ l1, q.2 < p.2)) := by
  induction rest generalizing k v with
  | nil => exact Or.inl ⟨rfl, by simp⟩
  | cons hd tl ih =>
    rcases hd with ⟨k2, v2⟩
    by_cases hlt : v < v2
    · rw [show argmax_go k v ((k2, v2) :: tl) = argmax_go k2 v2 tl by
        simp [argmax_go, hlt]]
      rcases ih k2 v2 with ⟨heq, hmax⟩ | ⟨l1, p, l2, hsplit, heq, hv, hmax, hpre⟩
      · refine Or.inr ⟨[], (k2, v2), tl, by simp, heq, hlt, ?_, by simp⟩
        intro q hq
        rcases List.mem_cons.mp hq with rfl | hq
        · exact le_refl _
        · exact hmax q hq
      · refine Or.inr ⟨(k2, v2) :: l1, p, l2, by simp [hsplit], heq,
          lt_trans hlt hv, ?_, ?_⟩
        · intro q hq
          rcases List.mem_cons.mp hq with rfl | hq
          · exact le_of_lt hv
          · exact hmax q hq
        · intro q hq
          rcases List.mem_cons.mp hq with rfl | hq
          · exact hv
          · exact hpre q hq
    · rw [show argmax_go k v ((k2, v2) :: tl) = argmax_go k v tl by
        simp [argmax_go, hlt]]
      rcases ih k v with ⟨heq, hmax⟩ | ⟨l1, p, l2, hsplit, heq, hv, hmax, hpre⟩
      · refine Or.inl ⟨heq, ?_⟩
        intro q hq
        rcases List.mem_cons.mp hq with rfl | hq
        · exact le_of_not_lt hlt
        · exact hmax q hq
      · refine Or.inr ⟨(k2, v2) :: l1, p, l2, by simp [hsplit], heq, hv, ?_, ?_⟩
        · intro q hq
          rcases List.mem_cons.mp hq with rfl | hq
          · exact le_trans (le_of_not_lt hlt) (le_of_lt hv)
          · exact hmax q hq
        · intro q hq
          rcases List.mem_cons.mp hq with rfl | hq
          · exact lt_of_le_of_lt (le_of_not_lt hlt) hv
          · exact hpre q hq

/-- Python max over a nonempty ordered dict returns the first key with the
maximal value. -/
theorem dict_argmax_spec (l : List (Int × EInt)) (hne : l ≠ []) :
    ∃ k, dict_argmax l = some k ∧ IsFirstArgmax l k := by
  cases l with
  | nil => exact absurd rfl hne
  | cons hd rest =>
    rcases hd with ⟨k, v⟩
    refine ⟨argmax_go k v rest, rfl, ?_⟩
    rcases argmax_go_spec k v rest with ⟨heq, hmax⟩ | ⟨l1, p, l2, hsplit, heq, hv, hmax, hpre⟩
    · refine ⟨[], v, rest, by simp [heq], ?_, by simp⟩
      intro q hq
      rcases List.mem_cons.mp hq with rfl | hq
      · exact le_refl _
      · exact hmax q hq
    · refine ⟨(k, v) :: l1, p.2, l2, ?_, ?_, ?_⟩
      · rw [heq, hsplit]
        simp
      · intro q hq
        rcases List.mem_cons.mp hq with rfl | hq
        · exact le_of_lt hv
        · rw [hsplit] at hq
          exact hmax q (by rw [hsplit]; exact hq)
      · intro q hq
        rcases List.mem_cons.mp hq with rfl | hq
        · exact hv
        · exact hpre q hq

end ab_minimax

/-! Claim C4: is the constructor's max_depth the depth bound of the search? -/

/-- A position (X to move as searcher) whose minimax values differ between
the hardcoded default depth 4 and a deeper search: X's win along moves 0/1
lies beyond four plies of the pre-applied state. -/
def s4bug : TicTacToe :=
  { board := [none, none, none, none, none, some Letter.X, none,
              some Letter.O, some Letter.O],
    current_winner := none, last_move := none }

/-- C4: get_move_values never reads the player's max_depth field, so the
search depth is always the minimax default 4: a player constructed with
max_depth = 9 computes exactly the same values as one with max_depth = 0,
these equal the claimed behaviour at depth 4, and on s4bug they differ
from the claimed behaviour at the constructed depth 9 (moves 0 and 1
evaluate to 0 under the code but to 1 under a depth-9 search). -/
theorem C4_code_bug :
    ab_minimax.player_get_move_values ⟨.X, 9⟩ TicTacToe.game s4bug
      = ab_minimax.player_get_move_values ⟨.X, 0⟩ TicTacToe.game s4bug
    ∧ ab_minimax.player_get_move_values ⟨.X, 9⟩ TicTacToe.game s4bug
      = ab_minimax.get_move_values_depth TicTacToe.game .X 4 s4bug
    ∧ ab_minimax.player_get_move_values ⟨.X, 9⟩ TicTacToe.game s4bug
      ≠ ab_minimax.get_move_values_depth TicTacToe.game .X 9 s4bug := by
  refine ⟨rfl, by decide, by decide⟩

/-! Claim C5: does the search alternate movers from the very top? -/

/-- A three-empties position: X at 0, 1, 6, O at 3, 4, 7, X to move. -/
def s5board : TicTacToe :=
  { board := [some Letter.X, some Letter.X, none, some Letter.O, some Letter.O,
              none, some Letter.X, some Letter.O, none],
    current_winner := none, last_move := none }

/-- C5 counterexample: the claim says the pre-applied candidate state is
evaluated with the opponent as mover.  In the code, get_move_values calls
self.minimax(temp_game, self.letter): the searcher moves again.  On
s5board every candidate scores 2 under the code (X always completes a row
with its second consecutive move), whereas the claimed opponent handoff
scores them 3, 0, -2. -/
theorem C5_counterexample :
    ab_minimax.get_move_values TicTacToe.game .X s5board
      ≠ ab_minimax.get_move_values_opp TicTacToe.game .X s5board
    ∧ ab_minimax.get_move_values TicTacToe.game .X s5board
      = [(2, .fin 2), (5, .fin 2), (8, .fin 2)]
    ∧ ab_minimax.get_move_values_opp TicTacToe.game .X s5board
      = [(2, .fin 3), (5, .fin 0), (8, .fin (-2))] := by
  refine ⟨by decide, by decide, by decide⟩

/-- C5 (amended): movers do alternate inside the recursion (each loop
iteration applies a move for the node's mover and recurses with the
opponent), but the top level hands the searching player to minimax as the
mover again after pre-applying the searcher's candidate move, so every
explored line starts with the searcher moving twice in a row; get_move
then returns the first candidate with the maximal value. -/
theorem C5_amended :
    (∀ (S : Type) (G : GameI S) (L : Letter) (game : S),
        ab_minimax.get_move_values G L game
          = (G.avail game).map (fun mv =>
              (mv, (ab_minimax.minimax_run G L (G.applyM game mv L) L).2)))
    ∧ (∀ (S : Type) (G : GameI S) (L : Letter) (game : S), G.avail game ≠ [] →
        ∃ k, ab_minimax.get_move G L game = some k
          ∧ ab_minimax.IsFirstArgmax (ab_minimax.get_move_values G L game) k) := by
  constructor
  · intro S G L game
    rfl
  · intro S G L game hne
    apply ab_minimax.dict_argmax_spec
    unfold ab_minimax.get_move_values
    simpa using hne

/-- C5 amended witness at a concrete input. -/
theorem C5_amended_witness :
    ab_minimax.get_move_values TicTacToe.game .X s5board
      = (TicTacToe.game.avail s5board).map (fun mv =>
          (mv, (ab_minimax.minimax_run TicTacToe.game .X
            (TicTacToe.game.applyM s5board mv .X) .X).2))
    ∧ ∃ k, ab_minimax.get_move TicTacToe.game .X s5board = some k
        ∧ ab_minimax.IsFirstArgmax
            (ab_minimax.get_move_values TicTacToe.game .X s5board) k :=
  ⟨C5_amended.1 TicTacToe TicTacToe.game .X s5board,
   C5_amended.2 TicTacToe TicTacToe.game .X s5board (by decide)⟩

/-! Claim C1: the alpha-beta pruned search equals exhaustive minimax. -/

namespace EInt

theorem le_negInf_iff {a : EInt} : a ≤ negInf ↔ a = negInf := by
  cases a <;> simp [le_def, ble]

theorem posInf_le_iff {a : EInt} : posInf ≤ a ↔ a = posInf := by
  cases a <;> simp [le_def, ble]

theorem max_negInf (a : EInt) : max a negInf = a := max_eq_left (bot_le' a)

theorem min_posInf (a : EInt) : min a posInf = a := min_eq_left (le_top' a)

end EInt

namespace ab_minimax

/-- The loop of an exhaustive minimax: the same best-update rule as the
source's loop with the alpha-beta state and the break removed (the claim's
reference algorithm, pruning deleted and nothing else changed). -/
def pure_loop (isMax : Bool) (eval : Int → Option Int × EInt) :
    List Int → (Option Int × EInt) → Option Int × EInt
  | [], best => best
  | col :: rest, best =>
    let sim : Option Int × EInt := (some col, (eval col).2)
    let best' : Option Int × EInt :=
      if isMax then (if best.2 < sim.2 then sim else best)
      else (if sim.2 < best.2 then sim else best)
    pure_loop isMax eval rest best'

/-- Exhaustive minimax with the depth cutoff kept: minimax with the
alpha-beta bookkeeping removed, used to bridge to the no-cutoff version. -/
def pure_minimax (G : GameI S) (L : Letter) :
    Nat → S → Letter → Nat → Nat → Option Int × EInt
  | fuel, state, player, depth, max_depth =>
    let other_player := player.opp
    if G.winner state = some other_player then
      (none, .fin (if other_player = L then (G.numEmpty state : Int) + 1
                   else -((G.numEmpty state : Int) + 1)))
    else if G.emptyB state = false then (none, .fin 0)
    else if depth = max_depth then (none, .fin (evaluate_state G L state))
    else
      match fuel with
      | 0 => (none, .fin 0)
      | fuel' + 1 =>
        pure_loop (player = L)
          (fun col =>
            pure_minimax G L fuel' (G.applyM state col player) player.opp
              (depth + 1) max_depth)
          (G.avail state)
          (none, if player = L then .negInf else .posInf)

/-- The claim's reference: exhaustive brute-force minimax without pruning
and without a depth cutoff, otherwise identical (same terminal scores,
same update order, same tie-breaking, same top-level handoff). -/
def brute_minimax (G : GameI S) (L : Letter) :
    Nat → S → Letter → Option Int × EInt
  | fuel, state, player =>
    let other_player := player.opp
    if G.winner state = some other_player then
      (none, .fin (if other_player = L then (G.numEmpty state : Int) + 1
                   else -((G.numEmpty state : Int) + 1)))
    else if G.emptyB state = false then (none, .fin 0)
    else
      match fuel with
      | 0 => (none, .fin 0)
      | fuel' + 1 =>
        pure_loop (player = L)
          (fun col => brute_minimax G L fuel' (G.applyM state col player) player.opp)
          (G.avail state)
          (none, if player = L then .negInf else .posInf)

/-- The candidate values of the exhaustive reference search, with the same
top-level handoff as the code. -/
def brute_move_values (G : GameI S) (L : Letter) (game : S) : List (Int × EInt) :=
  (G.avail game).map (fun move =>
    (move, (brute_minimax G L (G.numEmpty (G.applyM game move L))
      (G.applyM game move L) L).2))

/-- The move the exhaustive reference search returns. -/
def brute_get_move (G : GameI S) (L : Letter) (game : S) : Option Int :=
  dict_argmax (brute_move_values G L game)

/-- The pure max-loop can only raise the running best. -/
theorem pure_loop_max_ge (eval : Int → Option Int × EInt) :
    ∀ (cs : List Int) (b : Option Int × EInt),
      b.2 ≤ (pure_loop true eval cs b).2 := by
  intro cs
  induction cs with
  | nil => intro b; exact le_refl _
  | cons c rest ih =>
    intro b
    rw [show pure_loop true eval (c :: rest) b
        = pure_loop true eval rest
            (if b.2 < (eval c).2 then ((some c, (eval c).2) : Option Int × EInt) else b) by
      simp [pure_loop]]
    by_cases h : b.2 < (eval c).2
    · rw [if_pos h]
      exact le_trans (le_of_lt h) (ih ((some c, (eval c).2) : Option Int × EInt))
    · rw [if_neg h]
      exact ih b

/-- The pure min-loop can only lower the running best. -/
theorem pure_loop_min_le (eval : Int → Option Int × EInt) :
    ∀ (cs : List Int) (b : Option Int × EInt),
      (pure_loop false eval cs b).2 ≤ b.2 := by
  intro cs
  induction cs with
  | nil => intro b; exact le_refl _
  | cons c rest ih =>
    intro b
    rw [show pure_loop false eval (c :: rest) b
        = pure_loop false eval rest
            (if (eval c).2 < b.2 then ((some c, (eval c).2) : Option Int × EInt) else b) by
      simp [pure_loop]]
    by_cases h : (eval c).2 < b.2
    · rw [if_pos h]
      exact le_trans (ih ((some c, (eval c).2) : Option Int × EInt)) (le_of_lt h)
    · rw [if_neg h]
      exact ih b

end ab_minimax

namespace ab_minimax

/-- One step of the maximizing alpha-beta loop. -/
theorem ab_loop_cons_true (evalC : Int → EInt → EInt → Option Int × EInt)
    (c : Int) (rest : List Int) (bC : Option Int × EInt) (a b : EInt) :
    ab_loop true evalC (c :: rest) bC a b =
      (if b ≤ max a (if bC.2 < (evalC c a b).2
            then ((some c, (evalC c a b).2) : Option Int × EInt) else bC).2
       then (if bC.2 < (evalC c a b).2
            then ((some c, (evalC c a b).2) : Option Int × EInt) else bC)
       else ab_loop true evalC rest
         (if bC.2 < (evalC c a b).2
            then ((some c, (evalC c a b).2) : Option Int × EInt) else bC)
         (max a (if bC.2 < (evalC c a b).2
            then ((some c, (evalC c a b).2) : Option Int × EInt) else bC).2) b) := by
  rfl

/-- One step of the minimizing alpha-beta loop. -/
theorem ab_loop_cons_false (evalC : Int → EInt → EInt → Option Int × EInt)
    (c : Int) (rest : List Int) (bC : Option Int × EInt) (a b : EInt) :
    ab_loop false evalC (c :: rest) bC a b =
      (if min b (if (evalC c a b).2 < bC.2
            then ((some c, (evalC c a b).2) : Option Int × EInt) else bC).2 ≤ a
       then (if (evalC c a b).2 < bC.2
            then ((some c, (evalC c a b).2) : Option Int × EInt) else bC)
       else ab_loop false evalC rest
         (if (evalC c a b).2 < bC.2
            then ((some c, (evalC c a b).2) : Option Int × EInt) else bC)
         a (min b (if (evalC c a b).2 < bC.2
            then ((some c, (evalC c a b).2) : Option Int × EInt) else bC).2)) := by
  rfl

/-- One step of the pure maximizing loop. -/
theorem pure_loop_cons_true (evalP : Int → Option Int × EInt)
    (c : Int) (rest : List Int) (bP : Option Int × EInt) :
    pure_loop true evalP (c :: rest) bP =
      pure_loop true evalP rest
        (if bP.2 < (evalP c).2 then ((some c, (evalP c).2) : Option Int × EInt) else bP) := by
  rfl

/-- One step of the pure minimizing loop. -/
theorem pure_loop_cons_false (evalP : Int → Option Int × EInt)
    (c : Int) (rest : List Int) (bP : Option Int × EInt) :
    pure_loop false evalP (c :: rest) bP =
      pure_loop false evalP rest
        (if (evalP c).2 < bP.2 then ((some c, (evalP c).2) : Option Int × EInt) else bP) := by
  rfl

end ab_minimax

namespace ab_minimax

/-- Fail-soft correctness of the maximizing alpha-beta loop, relative to
the pure loop.  alpha0 and beta0 are the node's window at entry; the
running alpha always equals max alpha0 best.2; the three invariants relate
the running code best to the running pure best and are preserved by each
iteration (H is the induction hypothesis for the children). -/
theorem ab_loop_max_triple
    {beta0 : EInt} {evalC : Int → EInt → EInt → Option Int × EInt}
    {evalP : Int → Option Int × EInt}
    (H : ∀ c a, a < beta0 →
      ((evalC c a beta0).2 ≤ a → (evalP c).2 ≤ (evalC c a beta0).2)
      ∧ (beta0 ≤ (evalC c a beta0).2 → (evalC c a beta0).2 ≤ (evalP c).2)
      ∧ (a < (evalC c a beta0).2 → (evalC c a beta0).2 < beta0 →
          (evalC c a beta0).2 = (evalP c).2)) :
    ∀ (cs : List Int) (alpha0 alpha : EInt) (bC bP : Option Int × EInt),
      alpha = max alpha0 bC.2 → alpha < beta0 →
      (bC.2 ≤ alpha0 → bP.2 ≤ bC.2) →
      (beta0 ≤ bC.2 → bC.2 ≤ bP.2) →
      (alpha0 < bC.2 → bC.2 < beta0 → bC.2 = bP.2) →
      ((ab_loop true evalC cs bC alpha beta0).2 ≤ alpha0 →
          (pure_loop true evalP cs bP).2 ≤ (ab_loop true evalC cs bC alpha beta0).2)
      ∧ (beta0 ≤ (ab_loop true evalC cs bC alpha beta0).2 →
          (ab_loop true evalC cs bC alpha beta0).2 ≤ (pure_loop true evalP cs bP).2)
      ∧ (alpha0 < (ab_loop true evalC cs bC alpha beta0).2 →
          (ab_loop true evalC cs bC alpha beta0).2 < beta0 →
          (ab_loop true evalC cs bC alpha beta0).2 = (pure_loop true evalP cs bP).2) := by
  intro cs
  induction cs with
  | nil =>
    intro alpha0 alpha bC bP _ _ i1 i2 i3
    exact ⟨i1, i2, i3⟩
  | cons c rest ih =>
    intro alpha0 alpha bC bP ha hab i1 i2 i3
    have halpha0 : alpha0 ≤ alpha := ha ▸ le_max_left _ _
    have hbCa : bC.2 ≤ alpha := ha ▸ le_max_right _ _
    have ha0b : alpha0 < beta0 := lt_of_le_of_lt halpha0 hab
    obtain ⟨T1, T2, T3⟩ := H c alpha hab
    rw [ab_loop_cons_true, pure_loop_cons_true]
    set gC := (evalC c alpha beta0).2 with hgCdef
    set vP := (evalP c).2 with hvPdef
    set bC' : Option Int × EInt := if bC.2 < gC then (some c, gC) else bC with hbCdef
    set bP' : Option Int × EInt := if bP.2 < vP then (some c, vP) else bP with hbPdef
    have hbC'2 : bC'.2 = max bC.2 gC := by
      rw [hbCdef]
      by_cases h : bC.2 < gC
      · rw [if_pos h]
        exact (max_eq_right (le_of_lt h)).symm
      · rw [if_neg h]
        exact (max_eq_left (le_of_not_lt h)).symm
    have hbP'2 : bP'.2 = max bP.2 vP := by
      rw [hbPdef]
      by_cases h : bP.2 < vP
      · rw [if_pos h]
        exact (max_eq_right (le_of_lt h)).symm
      · rw [if_neg h]
        exact (max_eq_left (le_of_not_lt h)).symm
    have i1' : bC'.2 ≤ alpha0 → bP'.2 ≤ bC'.2 := by
      intro hle
      rw [hbC'2] at hle ⊢
      rw [hbP'2]
      have hbc : bC.2 ≤ alpha0 := le_trans (le_max_left _ _) hle
      have hgc : gC ≤ alpha0 := le_trans (le_max_right _ _) hle
      have hvpc : vP ≤ gC := T1 (le_trans hgc halpha0)
      exact max_le (le_trans (i1 hbc) (le_max_left _ _))
        (le_trans hvpc (le_max_right _ _))
    have i2' : beta0 ≤ bC'.2 → bC'.2 ≤ bP'.2 := by
      intro hge
      rw [hbC'2] at hge ⊢
      rw [hbP'2]
      by_cases h : bC.2 ≤ gC
      · rw [max_eq_right h] at hge ⊢
        exact le_trans (T2 hge) (le_max_right _ _)
      · rw [max_eq_left (le_of_not_le h)] at hge ⊢
        exact le_trans (i2 hge) (le_max_left _ _)
    have i3' : alpha0 < bC'.2 → bC'.2 < beta0 → bC'.2 = bP'.2 := by
      intro hgt hlt
      rw [hbC'2] at hgt hlt ⊢
      rw [hbP'2]
      by_cases h : bC.2 < gC
      · rw [max_eq_right (le_of_lt h)] at hgt hlt ⊢
        have haG : alpha < gC := by
          rw [ha]
          exact max_lt hgt h
        have hEq : gC = vP := T3 haG hlt
        have hbPle : bP.2 ≤ gC := by
          by_cases hb : bC.2 ≤ alpha0
          · exact le_trans (i1 hb) (le_of_lt h)
          · have hi3 := i3 (lt_of_not_le hb) (lt_trans h hlt)
            exact hi3 ▸ le_of_lt h
        rw [hEq]
        exact (max_eq_right (hEq ▸ hbPle)).symm
      · rw [max_eq_left (le_of_not_lt h)] at hgt hlt ⊢
        have hEq : bC.2 = bP.2 := i3 hgt hlt
        have hvp : vP ≤ gC := T1 (le_trans (le_of_not_lt h) hbCa)
        rw [hEq]
        exact (max_eq_left (le_trans hvp (hEq ▸ le_of_not_lt h))).symm
    have hbCle : bC.2 ≤ bC'.2 := hbC'2 ▸ le_max_left _ _
    have ha'eq : max alpha bC'.2 = max alpha0 bC'.2 := by
      rw [ha, max_assoc]
      congr 1
      exact max_eq_right hbCle
    by_cases hbreak : beta0 ≤ max alpha bC'.2
    · rw [if_pos hbreak]
      have hbB : beta0 ≤ bC'.2 := by
        by_contra hnot
        have h1 : max alpha0 bC'.2 < beta0 := max_lt ha0b (lt_of_not_le hnot)
        rw [ha'eq] at hbreak
        exact absurd (lt_of_le_of_lt hbreak h1) (lt_irrefl _)
      refine ⟨?_, ?_, ?_⟩
      · intro hle
        exact absurd (lt_of_le_of_lt hle ha0b) (not_lt_of_le hbB)
      · intro _
        exact le_trans (i2' hbB) (pure_loop_max_ge evalP rest bP')
      · intro _ hlt
        exact absurd hlt (not_lt_of_le hbB)
    · rw [if_neg hbreak]
      exact ih alpha0 (max alpha bC'.2) bC' bP' ha'eq (lt_of_not_le hbreak) i1' i2' i3'

end ab_minimax

namespace ab_minimax

/-- Fail-soft correctness of the minimizing alpha-beta loop, dual to
ab_loop_max_triple: alpha0 is fixed, the running beta equals
min beta0 best.2 and shrinks. -/
theorem ab_loop_min_triple
    {alpha0 : EInt} {evalC : Int → EInt → EInt → Option Int × EInt}
    {evalP : Int → Option Int × EInt}
    (H : ∀ c b, alpha0 < b →
      ((evalC c alpha0 b).2 ≤ alpha0 → (evalP c).2 ≤ (evalC c alpha0 b).2)
      ∧ (b ≤ (evalC c alpha0 b).2 → (evalC c alpha0 b).2 ≤ (evalP c).2)
      ∧ (alpha0 < (evalC c alpha0 b).2 → (evalC c alpha0 b).2 < b →
          (evalC c alpha0 b).2 = (evalP c).2)) :
    ∀ (cs : List Int) (beta0 beta : EInt) (bC bP : Option Int × EInt),
      beta = min beta0 bC.2 → alpha0 < beta →
      (bC.2 ≤ alpha0 → bP.2 ≤ bC.2) →
      (beta0 ≤ bC.2 → bC.2 ≤ bP.2) →
      (alpha0 < bC.2 → bC.2 < beta0 → bC.2 = bP.2) →
      ((ab_loop false evalC cs bC alpha0 beta).2 ≤ alpha0 →
          (pure_loop false evalP cs bP).2 ≤ (ab_loop false evalC cs bC alpha0 beta).2)
      ∧ (beta0 ≤ (ab_loop false evalC cs bC alpha0 beta).2 →
          (ab_loop false evalC cs bC alpha0 beta).2 ≤ (pure_loop false evalP cs bP).2)
      ∧ (alpha0 < (ab_loop false evalC cs bC alpha0 beta).2 →
          (ab_loop false evalC cs bC alpha0 beta).2 < beta0 →
          (ab_loop false evalC cs bC alpha0 beta).2 = (pure_loop false evalP cs bP).2) := by
  intro cs
  induction cs with
  | nil =>
    intro beta0 beta bC bP _ _ i1 i2 i3
    exact ⟨i1, i2, i3⟩
  | cons c rest ih =>
    intro beta0 beta bC bP hb hab i1 i2 i3
    have hbeta0 : beta ≤ beta0 := hb ▸ min_le_left _ _
    have hbCb : beta ≤ bC.2 := hb ▸ min_le_right _ _
    have ha0b : alpha0 < beta0 := lt_of_lt_of_le hab hbeta0
    obtain ⟨T1, T2, T3⟩ := H c beta hab
    rw [ab_loop_cons_false, pure_loop_cons_false]
    set gC := (evalC c alpha0 beta).2 with hgCdef
    set vP := (evalP c).2 with hvPdef
    set bC' : Option Int × EInt := if gC < bC.2 then (some c, gC) else bC with hbCdef
    set bP' : Option Int × EInt := if vP < bP.2 then (some c, vP) else bP with hbPdef
    have hbC'2 : bC'.2 = min bC.2 gC := by
      rw [hbCdef]
      by_cases h : gC < bC.2
      · rw [if_pos h]
        exact (min_eq_right (le_of_lt h)).symm
      · rw [if_neg h]
        exact (min_eq_left (le_of_not_lt h)).symm
    have hbP'2 : bP'.2 = min bP.2 vP := by
      rw [hbPdef]
      by_cases h : vP < bP.2
      · rw [if_pos h]
        exact (min_eq_right (le_of_lt h)).symm
      · rw [if_neg h]
        exact (min_eq_left (le_of_not_lt h)).symm
    have i1' : bC'.2 ≤ alpha0 → bP'.2 ≤ bC'.2 := by
      intro hle
      rw [hbC'2] at hle ⊢
      rw [hbP'2]
      by_cases h : bC.2 ≤ gC
      · rw [min_eq_left h] at hle ⊢
        exact le_trans (min_le_left _ _) (i1 hle)
      · rw [min_eq_right (le_of_not_le h)] at hle ⊢
        exact le_trans (min_le_right _ _) (T1 hle)
    have i2' : beta0 ≤ bC'.2 → bC'.2 ≤ bP'.2 := by
      intro hge
      rw [hbC'2] at hge ⊢
      rw [hbP'2]
      have hbc : beta0 ≤ bC.2 := le_trans hge (min_le_left _ _)
      have hgc : beta0 ≤ gC := le_trans hge (min_le_right _ _)
      exact le_min (le_trans (min_le_left _ _) (i2 hbc))
        (le_trans (min_le_right _ _) (T2 (le_trans hbeta0 hgc)))
    have i3' : alpha0 < bC'.2 → bC'.2 < beta0 → bC'.2 = bP'.2 := by
      intro hgt hlt
      rw [hbC'2] at hgt hlt ⊢
      rw [hbP'2]
      by_cases h : gC < bC.2
      · rw [min_eq_right (le_of_lt h)] at hgt hlt ⊢
        have hGb : gC < beta := by
          rw [hb]
          exact lt_min hlt h
        have hEq : gC = vP := T3 hgt hGb
        have hbPge : gC ≤ bP.2 := by
          by_cases hb1 : bC.2 ≤ alpha0
          · exact absurd (lt_trans hgt h) (not_lt_of_le hb1)
          · by_cases hb2 : beta0 ≤ bC.2
            · exact le_trans (le_of_lt (lt_of_lt_of_le hGb (le_trans hbeta0 hb2)))
                (i2 hb2)
            · have hi3 := i3 (lt_of_not_le hb1) (lt_of_not_le hb2)
              exact hi3 ▸ le_of_lt h
        rw [hEq]
        exact (min_eq_right (hEq ▸ hbPge)).symm
      · rw [min_eq_left (le_of_not_lt h)] at hgt hlt ⊢
        have hEq : bC.2 = bP.2 := i3 hgt hlt
        have hvp : gC ≤ vP := T2 (le_trans hbCb (le_of_not_lt h))
        rw [hEq]
        exact (min_eq_left (le_trans (hEq ▸ le_of_not_lt h) hvp)).symm
    have hbCge : bC'.2 ≤ bC.2 := hbC'2 ▸ min_le_left _ _
    have hb'eq : min beta bC'.2 = min beta0 bC'.2 := by
      rw [hb, min_assoc]
      congr 1
      exact min_eq_right hbCge
    by_cases hbreak : min beta bC'.2 ≤ alpha0
    · rw [if_pos hbreak]
      have hbA : bC'.2 ≤ alpha0 := by
        by_contra hnot
        have h1 : alpha0 < min beta0 bC'.2 := lt_min ha0b (lt_of_not_le hnot)
        rw [hb'eq] at hbreak
        exact absurd (lt_of_lt_of_le h1 hbreak) (lt_irrefl _)
      refine ⟨?_, ?_, ?_⟩
      · intro _
        exact le_trans (pure_loop_min_le evalP rest bP') (i1' hbA)
      · intro hge
        exact absurd (lt_of_lt_of_le ha0b hge) (not_lt_of_le hbA)
      · intro hgt _
        exact absurd hgt (not_lt_of_le hbA)
    · rw [if_neg hbreak]
      exact ih beta0 (min beta bC'.2) bC' bP' hb'eq (lt_of_not_le hbreak) i1' i2' i3'

end ab_minimax

namespace ab_minimax

/-- On a terminal or cutoff state both searches return the same result,
independent of fuel and of the window. -/
theorem minimax_terminal_eq_pure (G : GameI S) (L : Letter)
    (fuel fuel2 : Nat) (s : S) (p : Letter) (a b : EInt) (d m : Nat)
    (h : G.winner s = some p.opp ∨ G.emptyB s = false ∨ d = m) :
    minimax G L fuel s p a b d m = pure_minimax G L fuel2 s p d m := by
  unfold minimax pure_minimax
  by_cases h1 : G.winner s = some p.opp
  · rw [if_pos h1, if_pos h1]
  · rw [if_neg h1, if_neg h1]
    by_cases h2 : G.emptyB s = false
    · rw [if_pos h2, if_pos h2]
    · rw [if_neg h2, if_neg h2]
      have h3 : d = m := by
        rcases h with h | h | h
        · exact absurd h h1
        · exact absurd h h2
        · exact h
      rw [if_pos h3, if_pos h3]

/-- Unfolding minimax on a non-terminal, non-cutoff state. -/
theorem minimax_step (G : GameI S) (L : Letter)
    (fuel : Nat) (s : S) (p : Letter) (a b : EInt) (d m : Nat)
    (h1 : ¬ G.winner s = some p.opp) (h2 : ¬ G.emptyB s = false) (h3 : ¬ d = m) :
    minimax G L (fuel + 1) s p a b d m
      = ab_loop (p = L)
          (fun col x y => minimax G L fuel (G.applyM s col p) p.opp x y (d + 1) m)
          (G.avail s) (none, if p = L then .negInf else .posInf) a b := by
  conv_lhs => rw [minimax]
  rw [if_neg h1, if_neg h2, if_neg h3]

/-- Unfolding pure_minimax on a non-terminal, non-cutoff state. -/
theorem pure_minimax_step (G : GameI S) (L : Letter)
    (fuel : Nat) (s : S) (p : Letter) (d m : Nat)
    (h1 : ¬ G.winner s = some p.opp) (h2 : ¬ G.emptyB s = false) (h3 : ¬ d = m) :
    pure_minimax G L (fuel + 1) s p d m
      = pure_loop (p = L)
          (fun col => pure_minimax G L fuel (G.applyM s col p) p.opp (d + 1) m)
          (G.avail s) (none, if p = L then .negInf else .posInf) := by
  conv_lhs => rw [pure_minimax]
  rw [if_neg h1, if_neg h2, if_neg h3]

/-- Fail-soft correctness of alpha-beta minimax relative to the pure
(exhaustive, depth-cut) minimax: within the window the scores agree, and a
fail-low (fail-high) score bounds the pure score from above (below). -/
theorem minimax_pure_triple (G : GameI S) (L : Letter) :
    ∀ (fuel : Nat) (s : S) (p : Letter) (a b : EInt) (d m : Nat), a < b →
      ((minimax G L fuel s p a b d m).2 ≤ a →
          (pure_minimax G L fuel s p d m).2 ≤ (minimax G L fuel s p a b d m).2)
      ∧ (b ≤ (minimax G L fuel s p a b d m).2 →
          (minimax G L fuel s p a b d m).2 ≤ (pure_minimax G L fuel s p d m).2)
      ∧ (a < (minimax G L fuel s p a b d m).2 →
          (minimax G L fuel s p a b d m).2 < b →
          (minimax G L fuel s p a b d m).2 = (pure_minimax G L fuel s p d m).2) := by
  intro fuel
  induction fuel with
  | zero =>
    intro s p a b d m _
    have heq : minimax G L 0 s p a b d m = pure_minimax G L 0 s p d m := by
      unfold minimax pure_minimax
      rfl
    rw [heq]
    exact ⟨fun _ => le_refl _, fun _ => le_refl _, fun _ _ => rfl⟩
  | succ fuel ih =>
    intro s p a b d m hab
    by_cases h1 : G.winner s = some p.opp
    · rw [minimax_terminal_eq_pure G L (fuel + 1) (fuel + 1) s p a b d m (Or.inl h1)]
      exact ⟨fun _ => le_refl _, fun _ => le_refl _, fun _ _ => rfl⟩
    by_cases h2 : G.emptyB s = false
    · rw [minimax_terminal_eq_pure G L (fuel + 1) (fuel + 1) s p a b d m (Or.inr (Or.inl h2))]
      exact ⟨fun _ => le_refl _, fun _ => le_refl _, fun _ _ => rfl⟩
    by_cases h3 : d = m
    · rw [minimax_terminal_eq_pure G L (fuel + 1) (fuel + 1) s p a b d m (Or.inr (Or.inr h3))]
      exact ⟨fun _ => le_refl _, fun _ => le_refl _, fun _ _ => rfl⟩
    rw [minimax_step G L fuel s p a b d m h1 h2 h3,
      pure_minimax_step G L fuel s p d m h1 h2 h3]
    by_cases hp : p = L
    · have hdec : (decide (p = L)) = true := decide_eq_true hp
      rw [hdec, if_pos hp]
      exact ab_loop_max_triple
        (fun c x hx => ih (G.applyM s c p) p.opp x b (d + 1) m hx)
        (G.avail s) a a (none, .negInf) (none, .negInf)
        (EInt.max_negInf a).symm hab
        (fun _ => le_refl _) (fun _ => le_refl _) (fun _ _ => rfl)
    · have hdec : (decide (p = L)) = false := decide_eq_false hp
      rw [hdec, if_neg hp]
      exact ab_loop_min_triple
        (fun c y hy => ih (G.applyM s c p) p.opp a y (d + 1) m hy)
        (G.avail s) b b (none, .posInf) (none, .posInf)
        (EInt.min_posInf b).symm hab
        (fun _ => le_refl _) (fun _ => le_refl _) (fun _ _ => rfl)

end ab_minimax

namespace ab_minimax

/-- With the full window (the one get_move_values uses), alpha-beta
minimax computes exactly the pure minimax score. -/
theorem minimax_full_window_eq_pure (G : GameI S) (L : Letter)
    (fuel : Nat) (s : S) (p : Letter) (d m : Nat) :
    (minimax G L fuel s p .negInf .posInf d m).2 = (pure_minimax G L fuel s p d m).2 := by
  obtain ⟨t1, t2, t3⟩ := minimax_pure_triple G L fuel s p .negInf .posInf d m (by decide)
  by_cases hlow : (minimax G L fuel s p .negInf .posInf d m).2 ≤ .negInf
  · have hg := EInt.le_negInf_iff.mp hlow
    have hV := EInt.le_negInf_iff.mp (hg ▸ t1 hlow)
    rw [hg, hV]
  by_cases hhigh : EInt.posInf ≤ (minimax G L fuel s p .negInf .posInf d m).2
  · have hg := EInt.posInf_le_iff.mp hhigh
    have hV := EInt.posInf_le_iff.mp (hg ▸ t2 hhigh)
    rw [hg, hV]
  · exact t3 (not_le.mp hlow) (not_le.mp hhigh)

/-- The pure loop only looks at the evaluations of listed moves. -/
theorem pure_loop_congr (isMax : Bool) {e1 e2 : Int → Option Int × EInt} :
    ∀ (cs : List Int), (∀ c ∈ cs, e1 c = e2 c) →
      ∀ b, pure_loop isMax e1 cs b = pure_loop isMax e2 cs b := by
  intro cs
  induction cs with
  | nil => intro _ b; rfl
  | cons c rest ih =>
    intro h b
    show pure_loop isMax e1 rest _ = pure_loop isMax e2 rest _
    rw [h c (List.mem_cons_self _ _)]
    exact ih (fun x hx => h x (List.mem_cons_of_mem _ hx)) _

/-- When the depth budget covers all remaining plies, the depth cutoff of
pure_minimax never fires and it coincides with the uncut brute force. -/
theorem pure_eq_brute (G : GameI S) (L : Letter)
    (hdec : ∀ (s : S) (mv : Int) (p : Letter), mv ∈ G.avail s →
      G.numEmpty (G.applyM s mv p) + 1 = G.numEmpty s)
    (hemp : ∀ s : S, G.emptyB s = true ↔ 0 < G.numEmpty s) :
    ∀ (fuel : Nat) (s : S) (p : Letter) (d m : Nat), G.numEmpty s + d ≤ m →
      pure_minimax G L fuel s p d m = brute_minimax G L fuel s p := by
  intro fuel
  induction fuel with
  | zero =>
    intro s p d m hbound
    unfold pure_minimax brute_minimax
    by_cases h1 : G.winner s = some p.opp
    · rw [if_pos h1, if_pos h1]
    rw [if_neg h1, if_neg h1]
    by_cases h2 : G.emptyB s = false
    · rw [if_pos h2, if_pos h2]
    rw [if_neg h2, if_neg h2]
    have hne : 0 < G.numEmpty s := (hemp s).mp (by
      cases hE : G.emptyB s
      · exact absurd hE h2
      · rfl)
    rw [if_neg (by omega : ¬ d = m)]
  | succ fuel ih =>
    intro s p d m hbound
    unfold pure_minimax brute_minimax
    by_cases h1 : G.winner s = some p.opp
    · rw [if_pos h1, if_pos h1]
    rw [if_neg h1, if_neg h1]
    by_cases h2 : G.emptyB s = false
    · rw [if_pos h2, if_pos h2]
    rw [if_neg h2, if_neg h2]
    have hne : 0 < G.numEmpty s := (hemp s).mp (by
      cases hE : G.emptyB s
      · exact absurd hE h2
      · rfl)
    rw [if_neg (by omega : ¬ d = m)]
    apply pure_loop_congr
    intro c hc
    apply ih
    have := hdec s c p hc
    omega

end ab_minimax

namespace TicTacToe

/-- A move from available_moves fills exactly one empty cell. -/
theorem num_empty_apply_move (g : TicTacToe) (mv : Int) (p : Letter)
    (h : mv ∈ available_moves g) :
    num_empty_squares (apply_move g mv p) + 1 = num_empty_squares g := by
  rcases mem_available_moves.mp h with ⟨j, rfl, hj⟩
  have hlt : j < g.board.length := (List.getElem?_eq_some.mp hj).1
  have hcell : g.board.getD j (some p) = none := by
    rw [List.getD_eq_getElem?_getD, hj]
    rfl
  unfold apply_move make_move
  have hidx : pyIdx g.board.length (j : Int) = some j := by
    unfold pyIdx
    rw [if_pos ⟨by omega, by omega⟩]
    simp
  rw [hidx]
  dsimp only
  rw [if_pos hcell]
  unfold num_empty_squares
  have hx := countP_set_exchange (fun c => c = none) g.board j (some p) (some p) hlt
  rw [hcell] at hx
  simpa using hx

/-- The board has an empty square exactly when the empty count is positive. -/
theorem empty_squares_iff (g : TicTacToe) :
    empty_squares g = true ↔ 0 < num_empty_squares g := by
  unfold empty_squares num_empty_squares
  rw [List.any_eq_true, List.countP_pos_iff]

end TicTacToe

/-- C1: when the depth bound covers the whole remaining game tree, pruning
changes nothing.  The code's effective bound is the minimax default
max_depth = 4 (see C4), and get_move_values pre-applies one move before
searching, so the hypothesis is numEmpty(game) ≤ 5, i.e. maxDepth = 4 is
at least the number of remaining plies of every pre-applied state.  Under
it, every candidate's alpha-beta score equals the exhaustive brute-force
minimax score (same algorithm with the pruning and the cutoff deleted),
and get_move returns the same move.  Stated over the abstract game
interface; the two game-fact hypotheses hold for the concrete games. -/
theorem C1_claim (S : Type) (G : GameI S) (L : Letter)
    (hdec : ∀ (s : S) (mv : Int) (p : Letter), mv ∈ G.avail s →
      G.numEmpty (G.applyM s mv p) + 1 = G.numEmpty s)
    (hemp : ∀ s : S, G.emptyB s = true ↔ 0 < G.numEmpty s)
    (game : S) (hplies : G.numEmpty game ≤ 5) :
    ab_minimax.get_move_values G L game = ab_minimax.brute_move_values G L game
    ∧ ab_minimax.get_move G L game = ab_minimax.brute_get_move G L game := by
  have hvals : ab_minimax.get_move_values G L game
      = ab_minimax.brute_move_values G L game := by
    unfold ab_minimax.get_move_values ab_minimax.brute_move_values
    apply List.map_congr_left
    intro mv hmv
    have hb : G.numEmpty (G.applyM game mv L) + 0 ≤ 4 := by
      have := hdec game mv L hmv
      omega
    rw [show ab_minimax.minimax_run G L (G.applyM game mv L) L
        = ab_minimax.minimax G L (G.numEmpty (G.applyM game mv L))
            (G.applyM game mv L) L .negInf .posInf 0 4 from rfl]
    rw [ab_minimax.minimax_full_window_eq_pure,
      ab_minimax.pure_eq_brute G L hdec hemp _ _ _ 0 4 hb]
  refine ⟨hvals, ?_⟩
  unfold ab_minimax.get_move ab_minimax.brute_get_move
  rw [hvals]

/-- A position with three empties used to instantiate C1 concretely. -/
def c1board : TicTacToe :=
  { board := [some .X, some .O, some .X, some .O, some .X, some .O,
              none, none, none],
    current_winner := none, last_move := none }

/-- C1 witness at a concrete input. -/
theorem C1_claim_witness :
    ab_minimax.get_move_values TicTacToe.game .X c1board
      = ab_minimax.brute_move_values TicTacToe.game .X c1board
    ∧ ab_minimax.get_move TicTacToe.game .X c1board
      = ab_minimax.brute_get_move TicTacToe.game .X c1board :=
  C1_claim TicTacToe TicTacToe.game .X
    (fun s mv p h => TicTacToe.num_empty_apply_move s mv p h)
    (fun s => TicTacToe.empty_squares_iff s)
    c1board (by decide)

/-! The Monte Carlo tree search player (player.py class MCTSPlayer).
The tree is a Python dict from node ids (tuples (0, move, move, ...)) to
node records; random.choice is modelled by an oracle stream o : Nat → Nat
together with a consumption counter, each choice from a list l taking
element o k % l.length.  The search is run on TicTacToe states (the class
is game-agnostic but duck-typed over the same methods). -/

namespace MCTSPlayer

/-- A node id: the Python tuple (0, m1, m2, ...) as a list. -/
abbrev NodeId := List Int

/-- The root id (0,). -/
def rootId : NodeId := [0]

/-- A tree node record; q is None on the fresh root and a float (here an
exact rational, with the same 1e-4 = 1/10000 epsilon) elsewhere. -/
structure Node where
  state : TicTacToe
  player : Letter
  child : List Int
  parent : Option NodeId
  n : Nat
  w : Int
  q : Option ℚ
deriving DecidableEq, Repr

/-- The tree dict as an association list (insertion order preserved). -/
abbrev Tree := List (NodeId × Node)

/-- Dictionary lookup; a missing id would be a Python KeyError, so callers
only use ids present in the tree; the default keeps the function total. -/
def findD (t : Tree) (id : NodeId) : Node :=
  match t.find? (fun p => p.1 = id) with
  | some p => p.2
  | none => { state := TicTacToe.init, player := .X, child := [],
              parent := none, n := 0, w := 0, q := none }

/-- In-place update of one node record. -/
def update (t : Tree) (id : NodeId) (f : Node → Node) : Tree :=
  t.map (fun p => if p.1 = id then (p.1, f p.2) else p)

/-- The oracle consuming one random.choice from a nonempty list. -/
def pick (o : Nat → Nat) (k : Nat) (l : List α) (dflt : α) : α :=
  l.getD (o k % l.length) dflt

/-- The MCTSPlayer instance state: letter, n_iterations (default 1500),
depth (default 15, stored but never used by the source), the exploration
constant (default 20), the tree, and total_n, initialized to 0 in
__init__ and never written again anywhere in the class. -/
structure MCTS where
  letter : Letter
  n_iterations : Nat
  depth : Nat
  exploration_constant : ℝ
  tree : Tree
  total_n : Nat

/-- The method _initialize_tree: a fresh root bound to (a copy of) the
game, player = self.letter, no children, no parent, n = w = 0, q = None. -/
def _initialize_tree (m : MCTS) (game : TicTacToe) : MCTS :=
  { m with tree := [(rootId,
      { state := game, player := m.letter, child := [], parent := none,
        n := 0, w := 0, q := none })] }

/-- The UCT value computed in selection:
w / (n + 1e-4) + C * sqrt(log(total_n + 1) / (n + 1e-4)), where total_n is
self.total_n if that is positive and 1 otherwise. -/
noncomputable def uct (C : ℝ) (total_n : Nat) (w : Int) (n : Nat) : ℝ :=
  let t : Nat := if 0 < total_n then total_n else 1
  (w : ℝ) / ((n : ℝ) + 1 / 10000)
    + C * Real.sqrt (Real.log ((t : ℝ) + 1) / ((n : ℝ) + 1 / 10000))

/-- The inner argmax of selection over a node's children: max_uct starts
at -inf (so the first candidate always replaces it) and is replaced only
on strictly greater UCT. -/
noncomputable def sel_go (t : Tree) (node_id : NodeId) (C : ℝ) (total_n : Nat) :
    List Int → Option (NodeId × ℝ) → Option NodeId
  | [], best => best.map (fun b => b.1)
  | a :: rest, best =>
    let child_id := node_id ++ [a]
    let nd := findD t child_id
    let u := uct C total_n nd.w nd.n
    match best with
    | none => sel_go t node_id C total_n rest (some (child_id, u))
    | some b =>
      if b.2 < u then sel_go t node_id C total_n rest (some (child_id, u))
      else sel_go t node_id C total_n rest (some b)

/-- The method selection: descend from the root while the current node has
children, to the child maximizing UCT; fuel bounds the descent (node ids
strictly lengthen, so tree.length + 1 is always enough). -/
noncomputable def selection (t : Tree) (C : ℝ) (total_n : Nat) :
    Nat → NodeId → NodeId
  | 0, node_id => node_id
  | fuel + 1, node_id =>
    let nd := findD t node_id
    if nd.child = [] then node_id
    else
      match sel_go t node_id C total_n nd.child none with
      | some best => selection t C total_n fuel best
      | none => node_id

/-- The method expansion: a leaf already visited (n > 0) is returned as
is; otherwise one child per legal move is created (state = move applied
for the leaf's player, player flipped, zero statistics) and registered,
and one of the fresh children is returned uniformly at random. -/
def expansion (t : Tree) (leaf_id : NodeId) (o : Nat → Nat) (k : Nat) :
    Tree × NodeId × Nat :=
  let leaf := findD t leaf_id
  if 0 < leaf.n then (t, leaf_id, k)
  else
    let moves := TicTacToe.available_moves leaf.state
    if moves = [] then (t, leaf_id, k)
    else
      let t1 := t ++ moves.map (fun mv => (leaf_id ++ [mv],
        { state := TicTacToe.apply_move leaf.state mv leaf.player,
          player := leaf.player.opp, child := [], parent := some leaf_id,
          n := 0, w := 0, q := some 0 }))
      let t2 := update t1 leaf_id (fun nd => { nd with child := nd.child ++ moves })
      (t2, pick o k (moves.map (fun mv => leaf_id ++ [mv])) leaf_id, k + 1)

/-- The per-ply scan of simulation: each legal move is applied to a clone;
a move that makes the current mover the winner returns the rollout result
immediately (+1 when the mover is the searching letter, -1 otherwise); a
move after which a winner other than the mover stands on the board scores
-100; anything else scores 0. -/
def score_moves (L : Letter) (g : TicTacToe) (mover : Letter) :
    List Int → Except Int (List (Int × Int))
  | [] => .ok []
  | mv :: rest =>
    let temp := TicTacToe.apply_move g mv mover
    if temp.current_winner = some mover then
      .error (if mover = L then 1 else -1)
    else if temp.current_winner ≠ none then
      (score_moves L g mover rest).map (fun l => (mv, -100) :: l)
    else
      (score_moves L g mover rest).map (fun l => (mv, 0) :: l)

/-- Python max over a nonempty list of ints. -/
def list_max (x : Int) (xs : List Int) : Int := xs.foldl max x

/-- The loop of the method simulation, on fuel (each ply fills a square,
so num_empty_squares at entry is enough fuel).  At each ply the legal
moves are scored; a uniformly random move among those with the maximal
score is applied; if a winner then stands the rollout returns plus or
minus 1 from the searching letter's perspective; a full board without a
winner returns 0. -/
def simulation_go (L : Letter) (o : Nat → Nat) :
    Nat → TicTacToe → Letter → Nat → Int × Nat
  | 0, _, _, k => (0, k)
  | fuel + 1, game, player, k =>
    if TicTacToe.empty_squares game = false then (0, k)
    else
      let moves := TicTacToe.available_moves game
      match score_moves L game player moves with
      | .error r => (r, k)
      | .ok scores =>
        let move := match scores with
          | [] => pick o k moves 0
          | s0 :: srest =>
            let mx := list_max s0.2 (srest.map (fun p => p.2))
            pick o k (((s0 :: srest).filter (fun p => p.2 = mx)).map (fun p => p.1)) 0
        let g2 := TicTacToe.apply_move game move player
        if g2.current_winner ≠ none then
          ((if g2.current_winner = some L then 1 else -1), k + 1)
        else
          simulation_go L o fuel g2 player.opp (k + 1)

/-- The method simulation, from a node of the tree. -/
def simulation (L : Letter) (t : Tree) (node_id : NodeId) (o : Nat → Nat) (k : Nat) :
    Int × Nat :=
  let nd := findD t node_id
  simulation_go L o (TicTacToe.num_empty_squares nd.state) nd.state nd.player k

/-- The method backpropagation: from the node up through parent links,
increment n, add the (sign-flipped at each level) result to w, and set
q = w / (n + 1e-4) from the updated values; fuel is the node id length
(the root has no parent). -/
def backpropagation (t : Tree) : Nat → NodeId → Int → Tree
  | 0, _, _ => t
  | fuel + 1, node_id, result =>
    let t1 := update t node_id (fun nd =>
      { nd with
        n := nd.n + 1
        w := nd.w + result
        q := some (((nd.w + result : Int) : ℚ) / (((nd.n + 1 : Nat) : ℚ) + 1 / 10000)) })
    match (findD t node_id).parent with
    | some pid => backpropagation t1 fuel pid (-result)
    | none => t1

/-- One iteration of the search loop in get_move_values: selection,
expansion, simulation, backpropagation.  Note no statement in the loop
(or anywhere else) writes total_n. -/
noncomputable def run_iteration (m : MCTS) (o : Nat → Nat) (k : Nat) : MCTS × Nat :=
  let leaf := selection m.tree m.exploration_constant m.total_n (m.tree.length + 1) rootId
  let e := expansion m.tree leaf o k
  let s := simulation m.letter e.1 e.2.1 o e.2.2
  let t2 := backpropagation e.1 e.2.1.length e.2.1 s.1
  ({ m with tree := t2 }, s.2)

/-- The n_iterations-fold iteration of the loop. -/
noncomputable def run_iters (o : Nat → Nat) : Nat → MCTS × Nat → MCTS × Nat
  | 0, mk => mk
  | i + 1, mk => run_iters o i (run_iteration mk.1 o mk.2)

/-- The method get_move_values: initialize the tree, run the loop, then
read each root child's q (for a child this is always a number; 0 stands
for the unreachable None) as its move value. -/
noncomputable def get_move_values (m : MCTS) (game : TicTacToe) (o : Nat → Nat) :
    List (Int × ℚ) :=
  let mr := run_iters o m.n_iterations (_initialize_tree m game, 0)
  let t := mr.1.tree
  (findD t rootId).child.map (fun mv => (mv, (findD t (rootId ++ [mv])).q.getD 0))

/-- Python max(d, key=d.get) over the rational move values: first key of
maximal value, none (ValueError) on an empty dict. -/
def argmax_q_go (k : Int) (v : ℚ) : List (Int × ℚ) → Int
  | [] => k
  | (k2, v2) :: rest => if v < v2 then argmax_q_go k2 v2 rest else argmax_q_go k v rest

/-- Python max over the move_values dict of get_move. -/
def dict_argmax_q : List (Int × ℚ) → Option Int
  | [] => none
  | (k, v) :: rest => some (argmax_q_go k v rest)

/-- The method get_move: best_move = max(move_values, key=move_values.get);
none models the uncaught ValueError of max() on an empty dict. -/
noncomputable def get_move (m : MCTS) (game : TicTacToe) (o : Nat → Nat) : Option Int :=
  dict_argmax_q (get_move_values m game o)

end MCTSPlayer

namespace MCTSPlayer

/-- The single-childless-root tree shape: what the tree looks like, for
the whole search, when the root state has no legal moves. -/
def RootOnly (game : TicTacToe) (t : Tree) : Prop :=
  ∃ nd : Node, t = [(rootId, nd)] ∧ nd.child = [] ∧ nd.state = game
    ∧ nd.parent = none

/-- On a childless root, selection stops immediately. -/
theorem selection_root_only {game : TicTacToe} {t : Tree} (h : RootOnly game t)
    (C : ℝ) (tn fuel : Nat) :
    selection t C tn (fuel + 1) rootId = rootId := by
  rcases h with ⟨nd, ht, hchild, _, _⟩
  rw [selection]
  have : findD t rootId = nd := by
    rw [ht]
    unfold findD
    simp
  rw [this, if_pos hchild]

/-- With no legal moves at the root, expansion never adds a child. -/
theorem expansion_root_only {game : TicTacToe} {t : Tree} (h : RootOnly game t)
    (hav : TicTacToe.available_moves game = []) (o : Nat → Nat) (k : Nat) :
    expansion t rootId o k = (t, rootId, k) := by
  rcases h with ⟨nd, ht, _, hstate, _⟩
  have hfind : findD t rootId = nd := by
    rw [ht]
    unfold findD
    simp
  unfold expansion
  rw [hfind]
  by_cases hn : 0 < nd.n
  · rw [if_pos hn]
  · rw [if_neg hn, hstate, hav]
    rw [if_pos rfl]

/-- Updating one node with a statistics-only function keeps the
childless-root shape. -/
theorem update_root_only {game : TicTacToe} {t : Tree} (h : RootOnly game t)
    (f : Node → Node)
    (hf : ∀ nd, (f nd).child = nd.child ∧ (f nd).state = nd.state
      ∧ (f nd).parent = nd.parent) :
    RootOnly game (update t rootId f) := by
  rcases h with ⟨nd, ht, hchild, hstate, hparent⟩
  exact ⟨f nd, by rw [ht]; unfold update; simp, (hf nd).1.trans hchild,
    (hf nd).2.1.trans hstate, (hf nd).2.2.trans hparent⟩

/-- Backpropagation from the root changes only the root's statistics. -/
theorem backpropagation_root_only {game : TicTacToe} {t : Tree} (h : RootOnly game t)
    (r : Int) : RootOnly game (backpropagation t rootId.length rootId r) := by
  rcases h with ⟨nd, ht, hchild, hstate, hparent⟩
  have hfind : findD t rootId = nd := by
    rw [ht]
    unfold findD
    simp
  rw [show rootId.length = 1 from rfl]
  rw [backpropagation]
  rw [hfind, hparent]
  exact update_root_only ⟨nd, ht, hchild, hstate, hparent⟩ _
    (fun x => ⟨rfl, rfl, rfl⟩)

/-- The search loop preserves the childless-root shape when the root has
no legal moves. -/
theorem run_iters_root_only {game : TicTacToe}
    (hav : TicTacToe.available_moves game = []) (o : Nat → Nat) :
    ∀ (iters : Nat) (m : MCTS) (k : Nat), RootOnly game m.tree →
      RootOnly game ((run_iters o iters (m, k)).1).tree := by
  intro iters
  induction iters with
  | zero => intro m k h; exact h
  | succ i ih =>
    intro m k h
    rw [run_iters]
    apply ih
    show RootOnly game (run_iteration m o k).1.tree
    have hsel : selection m.tree m.exploration_constant m.total_n
        (m.tree.length + 1) rootId = rootId := selection_root_only h _ _ _
    simp only [run_iteration, hsel]
    rw [expansion_root_only h hav o k]
    exact backpropagation_root_only h _

/-- C9: invoked on a state with no available moves, MCTSPlayer.get_move
never detects the condition: the tree keeps a single childless root, the
move_values dict stays empty, and get_move runs max() over that empty
dict, which raises ValueError (modelled as none) instead of an explicit
no-legal-move signal. -/
theorem C9_code_bug (m : MCTS) (game : TicTacToe) (o : Nat → Nat)
    (hav : TicTacToe.available_moves game = []) :
    get_move_values m game o = [] ∧ get_move m game o = none := by
  have hinit : RootOnly game (_initialize_tree m game).tree :=
    ⟨_, rfl, rfl, rfl, rfl⟩
  have hfinal := run_iters_root_only hav o m.n_iterations (_initialize_tree m game) 0 hinit
  rcases hfinal with ⟨nd, ht, hchild, _, _⟩
  have hvals : get_move_values m game o = [] := by
    simp only [get_move_values]
    rw [show findD (run_iters o m.n_iterations (_initialize_tree m game, 0)).1.tree rootId
        = nd by rw [ht]; unfold findD; simp]
    rw [hchild]
    rfl
  exact ⟨hvals, by unfold get_move; rw [hvals]; rfl⟩

end MCTSPlayer

/-- C9 witness: a full TicTacToe board (a drawn game) has no available
moves, and get_move crashes rather than signalling. -/
theorem C9_code_bug_witness :
    MCTSPlayer.get_move
      { letter := .X, n_iterations := 1500, depth := 15,
        exploration_constant := (20 : ℝ), tree := [], total_n := 0 }
      { board := [some .X, some .O, some .X, some .X, some .O, some .O,
                  some .O, some .X, some .X],
        current_winner := none, last_move := some 8 }
      (fun _ => 0) = none :=
  (MCTSPlayer.C9_code_bug _ _ _ (by decide)).2

/-- With no winner on the board, applying a move leaves no winner or makes
the mover the winner; a third party can never appear. -/
theorem TicTacToe.apply_move_winner_cases (g : TicTacToe) (mv : Int) (letter : Letter)
    (hw : g.current_winner = none) :
    (TicTacToe.apply_move g mv letter).current_winner = none
    ∨ (TicTacToe.apply_move g mv letter).current_winner = some letter := by
  unfold TicTacToe.apply_move TicTacToe.make_move
  cases hp : pyIdx g.board.length mv with
  | none =>
    dsimp only
    exact Or.inl hw
  | some j =>
    dsimp only
    by_cases hc : g.board.getD j (some letter) = none
    · rw [if_pos hc]
      dsimp only
      by_cases hwin : TicTacToe.winner_check (g.board.set j (some letter)) mv letter = true
      · rw [if_pos hwin]
        exact Or.inr rfl
      · rw [if_neg hwin]
        exact Or.inl hw
    · rw [if_neg hc]
      dsimp only
      exact Or.inl hw

/-- The rollout scoring loop as the claim words it: a winning move by a
mover other than the searching letter is recorded with score -100 and the
scan continues; only a searching-letter win returns immediately. -/
def score_moves_claimed (L : Letter) (g : TicTacToe) (mover : Letter) :
    List Int → Except Int (List (Int × Int))
  | [] => .ok []
  | mv :: rest =>
    let temp := TicTacToe.apply_move g mv mover
    if temp.current_winner = some mover then
      if mover = L then .error 1
      else (score_moves_claimed L g mover rest).map (fun l => (mv, -100) :: l)
    else if temp.current_winner ≠ none then
      (score_moves_claimed L g mover rest).map (fun l => (mv, -100) :: l)
    else
      (score_moves_claimed L g mover rest).map (fun l => (mv, 0) :: l)

/-- A position (O to move, searcher X) where O has an instant win. -/
def gC3 : TicTacToe :=
  { board := [some .X, some .X, none, some .O, some .O, none,
              some .X, some .O, none],
    current_winner := none, last_move := some 7 }

/-- C3 counterexample: at gC3 the mover O is not the searching player X
and has the instant win 5; the code's scan returns -1 immediately, while
the claimed behaviour scores (5, -100) and keeps scanning. -/
theorem C3_counterexample :
    Letter.O ≠ Letter.X
    ∧ (∃ mv ∈ TicTacToe.available_moves gC3,
        (TicTacToe.apply_move gC3 mv .O).current_winner = some Letter.O)
    ∧ score_moves_claimed .X gC3 .O (TicTacToe.available_moves gC3)
        = .ok [(2, 0), (5, -100), (8, 0)]
    ∧ MCTSPlayer.score_moves .X gC3 .O (TicTacToe.available_moves gC3)
        = .error (-1) := by
  refine ⟨by decide, ⟨5, by decide, by decide⟩, by rfl, by rfl⟩

/-- C3 amended: in a position with no pre-existing winner, the rollout
scan returns immediately on the first instant win for the CURRENT mover,
with +1 when that mover is the searching letter and -1 otherwise (for
either mover); when no scanned move wins for the mover every move is
scored 0 (the -100 branch needs a pre-existing winner to fire). -/
theorem C3_amended (L : Letter) (g : TicTacToe) (mover : Letter) (moves : List Int)
    (hw : g.current_winner = none) :
    ((∃ mv ∈ moves,
        (TicTacToe.apply_move g mv mover).current_winner = some mover) →
      MCTSPlayer.score_moves L g mover moves
        = .error (if mover = L then 1 else -1))
    ∧ ((∀ mv ∈ moves,
        (TicTacToe.apply_move g mv mover).current_winner ≠ some mover) →
      MCTSPlayer.score_moves L g mover moves
        = .ok (moves.map (fun mv => (mv, 0)))) := by
  induction moves with
  | nil =>
    refine ⟨?_, fun _ => rfl⟩
    rintro ⟨mv, hmem, _⟩
    exact absurd hmem (List.not_mem_nil mv)
  | cons mv rest ih =>
    rw [MCTSPlayer.score_moves]
    by_cases h1 : (TicTacToe.apply_move g mv mover).current_winner = some mover
    · rw [if_pos h1]
      exact ⟨fun _ => rfl, fun hall => absurd h1 (hall mv (List.mem_cons_self mv rest))⟩
    · have h0 : (TicTacToe.apply_move g mv mover).current_winner = none :=
        (TicTacToe.apply_move_winner_cases g mv mover hw).resolve_right h1
      rw [if_neg h1, if_neg (by rw [h0]; exact fun h => h rfl)]
      constructor
      · rintro ⟨mv2, hmem2, hwin2⟩
        rcases List.mem_cons.mp hmem2 with h | h
        · exact absurd (h ▸ hwin2) h1
        · rw [ih.1 ⟨mv2, h, hwin2⟩]
          rfl
      · intro hall
        rw [ih.2 (fun x hx => hall x (List.mem_cons_of_mem mv hx))]
        rfl

/-- C3 amended witness: at gC3 with mover O (not the searcher X), the scan
returns -1 immediately. -/
theorem C3_amended_witness :
    gC3.current_winner = none
    ∧ MCTSPlayer.score_moves .X gC3 .O (TicTacToe.available_moves gC3)
        = .error (-1) :=
  ⟨by decide,
   (C3_amended .X gC3 .O (TicTacToe.available_moves gC3) (by decide)).1
     ⟨5, by decide, by decide⟩⟩

namespace MCTSPlayer

/-- The UCT value a child contributes in sel_go, as a function of the move. -/
noncomputable def uct_of (t : Tree) (nid : NodeId) (C : ℝ) (tn : Nat) (a : Int) : ℝ :=
  uct C tn (findD t (nid ++ [a])).w (findD t (nid ++ [a])).n

/-- Unfolding sel_go on nil. -/
theorem sel_go_nil (t : Tree) (nid : NodeId) (C : ℝ) (tn : Nat)
    (best : Option (NodeId × ℝ)) :
    sel_go t nid C tn [] best = best.map (fun b => b.1) := rfl

/-- Unfolding sel_go on a cons with no best yet. -/
theorem sel_go_cons_none (t : Tree) (nid : NodeId) (C : ℝ) (tn : Nat)
    (hd : Int) (tl : List Int) :
    sel_go t nid C tn (hd :: tl) none
      = sel_go t nid C tn tl (some (nid ++ [hd], uct_of t nid C tn hd)) := rfl

/-- Unfolding sel_go on a cons with a current best. -/
theorem sel_go_cons_some (t : Tree) (nid : NodeId) (C : ℝ) (tn : Nat)
    (hd : Int) (tl : List Int) (i : NodeId) (u : ℝ) :
    sel_go t nid C tn (hd :: tl) (some (i, u))
      = if u < uct_of t nid C tn hd
        then sel_go t nid C tn tl (some (nid ++ [hd], uct_of t nid C tn hd))
        else sel_go t nid C tn tl (some (i, u)) := rfl

/-- Unfolding one step of the selection descent. -/
theorem selection_step (t : Tree) (C : ℝ) (tn : Nat) (fuel : Nat) (nid : NodeId) :
    selection t C tn (fuel + 1) nid
      = if (findD t nid).child = [] then nid
        else match sel_go t nid C tn (findD t nid).child none with
          | some best => selection t C tn fuel best
          | none => nid := rfl

/-- The UCT formula as the claim words it: the log argument is the root
node's accumulated visit count rootN (not self.total_n). -/
noncomputable def uct_claimed (C : ℝ) (rootN : Nat) (w : Int) (n : Nat) : ℝ :=
  (w : ℝ) / ((n : ℝ) + 1 / 10000)
    + C * Real.sqrt (Real.log ((rootN : ℝ) + 1) / ((n : ℝ) + 1 / 10000))

/-- The claim's child argmax: same first-strict-maximum fold as the code,
with the claimed UCT formula. -/
noncomputable def sel_go_claimed (t : Tree) (node_id : NodeId) (C : ℝ) (rootN : Nat) :
    List Int → Option (NodeId × ℝ) → Option NodeId
  | [], best => best.map (fun b => b.1)
  | a :: rest, best =>
    let child_id := node_id ++ [a]
    let nd := findD t child_id
    let u := uct_claimed C rootN nd.w nd.n
    match best with
    | none => sel_go_claimed t node_id C rootN rest (some (child_id, u))
    | some b =>
      if b.2 < u then sel_go_claimed t node_id C rootN rest (some (child_id, u))
      else sel_go_claimed t node_id C rootN rest (some b)

/-- The claimed child UCT as a function of the move. -/
noncomputable def uct_claimed_of (t : Tree) (nid : NodeId) (C : ℝ) (rootN : Nat)
    (a : Int) : ℝ :=
  uct_claimed C rootN (findD t (nid ++ [a])).w (findD t (nid ++ [a])).n

/-- Unfolding sel_go_claimed on nil. -/
theorem sel_go_claimed_nil (t : Tree) (nid : NodeId) (C : ℝ) (rootN : Nat)
    (best : Option (NodeId × ℝ)) :
    sel_go_claimed t nid C rootN [] best = best.map (fun b => b.1) := rfl

/-- Unfolding sel_go_claimed on a cons with no best yet. -/
theorem sel_go_claimed_cons_none (t : Tree) (nid : NodeId) (C : ℝ) (rootN : Nat)
    (hd : Int) (tl : List Int) :
    sel_go_claimed t nid C rootN (hd :: tl) none
      = sel_go_claimed t nid C rootN tl
          (some (nid ++ [hd], uct_claimed_of t nid C rootN hd)) := rfl

/-- Unfolding sel_go_claimed on a cons with a current best. -/
theorem sel_go_claimed_cons_some (t : Tree) (nid : NodeId) (C : ℝ) (rootN : Nat)
    (hd : Int) (tl : List Int) (i : NodeId) (u : ℝ) :
    sel_go_claimed t nid C rootN (hd :: tl) (some (i, u))
      = if u < uct_claimed_of t nid C rootN hd
        then sel_go_claimed t nid C rootN tl
              (some (nid ++ [hd], uct_claimed_of t nid C rootN hd))
        else sel_go_claimed t nid C rootN tl (some (i, u)) := rfl

/-- With self.total_n = 0 the log argument of the code's UCT is the
constant 2 whatever the visit counts are. -/
theorem uct_zero_tn (C : ℝ) (w : Int) (n : Nat) :
    uct C 0 w n = (w : ℝ) / ((n : ℝ) + 1 / 10000)
      + C * Real.sqrt (Real.log 2 / ((n : ℝ) + 1 / 10000)) := by
  simp only [uct]
  norm_num

/-- The natural log of 4 is twice that of 2. -/
theorem log_four : Real.log 4 = 2 * Real.log 2 := by
  rw [show (4:ℝ) = 2 ^ 2 by norm_num, Real.log_pow]
  push_cast
  ring

/-- The claimed UCT at root visit count 3 reads log 4. -/
theorem uct_claimed_three (C : ℝ) (w : Int) (n : Nat) :
    uct_claimed C 3 w n = (w : ℝ) / ((n : ℝ) + 1 / 10000)
      + C * Real.sqrt ((2 * Real.log 2) / ((n : ℝ) + 1 / 10000)) := by
  simp only [uct_claimed]
  rw [show (((3:Nat) : ℝ) + 1) = 4 by norm_num, log_four]

end MCTSPlayer

namespace MCTSPlayer

/-- Iteration-2 comparison at the root: the unvisited child's UCT beats
the visited winning child's. -/
theorem c2_I2 : uct 3 0 1 1 < uct 3 0 0 0 := by
  rw [uct_zero_tn, uct_zero_tn]
  push_cast
  have ha : Real.sqrt (Real.log 2 / (1 + 1 / 10000)) < 1 := by
    rw [Real.sqrt_lt' one_pos]
    rw [div_lt_iff (by norm_num : (0:ℝ) < 1 + 1 / 10000)]
    nlinarith [Real.log_two_lt_d9]
  have hb : (2:ℝ) < Real.sqrt (Real.log 2 / (0 + 1 / 10000)) := by
    rw [Real.lt_sqrt (by norm_num : (0:ℝ) ≤ 2)]
    rw [lt_div_iff (by norm_num : (0:ℝ) < 0 + 1 / 10000)]
    nlinarith [Real.log_two_gt_d9]
  have hc : (1:ℝ) / (1 + 1 / 10000) ≤ 1 := by norm_num
  have hd : (0:ℝ) / (0 + 1 / 10000) = 0 := by norm_num
  linarith

/-- Iteration-3 comparison at the root: the two children have equal
exploration terms and only the first has positive mean. -/
theorem c2_I3 : uct 3 0 0 1 ≤ uct 3 0 1 1 := by
  rw [uct_zero_tn, uct_zero_tn]
  push_cast
  have hc : (0:ℝ) / (1 + 1 / 10000) = 0 := by norm_num
  have hd : (0:ℝ) ≤ 1 / (1 + 1 / 10000) := by norm_num
  linarith

/-- Iteration-4 comparison under the code's UCT (log 2): the twice-visited
all-win child still beats the once-visited one. -/
theorem c2_I4 : uct 3 0 0 1 ≤ uct 3 0 2 2 := by
  rw [uct_zero_tn, uct_zero_tn]
  push_cast
  have ha : Real.sqrt (Real.log 2 / (1 + 1 / 10000)) < 0.83252 := by
    rw [Real.sqrt_lt' (by norm_num : (0:ℝ) < 0.83252)]
    rw [div_lt_iff (by norm_num : (0:ℝ) < 1 + 1 / 10000)]
    nlinarith [Real.log_two_lt_d9]
  have hb : (0.5886:ℝ) < Real.sqrt (Real.log 2 / (2 + 1 / 10000)) := by
    rw [Real.lt_sqrt (by norm_num : (0:ℝ) ≤ 0.5886)]
    rw [lt_div_iff (by norm_num : (0:ℝ) < 2 + 1 / 10000)]
    nlinarith [Real.log_two_gt_d9]
  have hc : (0.9:ℝ) ≤ 2 / (2 + 1 / 10000) := by norm_num
  have hd : (0:ℝ) / (1 + 1 / 10000) = 0 := by norm_num
  linarith

/-- Iteration-4 comparison under the claimed UCT (log 4 at root count 3):
the once-visited child now wins the comparison. -/
theorem c2_I4c : uct_claimed 3 3 2 2 < uct_claimed 3 3 0 1 := by
  rw [uct_claimed_three, uct_claimed_three]
  push_cast
  have ha : Real.sqrt (2 * Real.log 2 / (2 + 1 / 10000)) < 0.83254 := by
    rw [Real.sqrt_lt' (by norm_num : (0:ℝ) < 0.83254)]
    rw [div_lt_iff (by norm_num : (0:ℝ) < 2 + 1 / 10000)]
    nlinarith [Real.log_two_lt_d9]
  have hb : (1.1773:ℝ) < Real.sqrt (2 * Real.log 2 / (1 + 1 / 10000)) := by
    rw [Real.lt_sqrt (by norm_num : (0:ℝ) ≤ 1.1773)]
    rw [lt_div_iff (by norm_num : (0:ℝ) < 1 + 1 / 10000)]
    nlinarith [Real.log_two_gt_d9]
  have hc : (2:ℝ) / (2 + 1 / 10000) ≤ 1 := by norm_num
  have hd : (0:ℝ) / (1 + 1 / 10000) = 0 := by norm_num
  linarith

end MCTSPlayer

namespace MCTSPlayer

/-- The C2 oracle: random.choice always takes the first element. -/
def o2 : Nat → Nat := fun _ => 0

/-- The C2 searcher: X, exploration constant 3, four iterations. -/
def m2 : MCTS :=
  { letter := .X, n_iterations := 4, depth := 15,
    exploration_constant := 3, tree := [], total_n := 0 }

/-- The C2 root position: X to choose between the winning square 2 and
the neutral square 7. -/
def s2root : TicTacToe :=
  { board := [some .X, some .X, none, some .O, some .O, some .X,
              some .X, none, some .O],
    current_winner := none, last_move := some 8 }

/-- The tree after _initialize_tree. -/
def c2_t0 : Tree := (_initialize_tree m2 s2root).tree

/-- Iteration 1 expansion (the selection step stops at the childless root). -/
def c2_e1 : Tree × NodeId × Nat := expansion c2_t0 rootId o2 0

/-- Iteration 1 simulation. -/
def c2_s1 : Int × Nat := simulation .X c2_e1.1 c2_e1.2.1 o2 c2_e1.2.2

/-- The tree after iteration 1. -/
def c2_t1 : Tree := backpropagation c2_e1.1 c2_e1.2.1.length c2_e1.2.1 c2_s1.1

/-- The oracle cursor after iteration 1. -/
def c2_k1 : Nat := c2_s1.2

/-- Iteration 2 expansion (the selection step descends to [0, 7]). -/
def c2_e2 : Tree × NodeId × Nat := expansion c2_t1 [0, 7] o2 c2_k1

/-- Iteration 2 simulation. -/
def c2_s2 : Int × Nat := simulation .X c2_e2.1 c2_e2.2.1 o2 c2_e2.2.2

/-- The tree after iteration 2. -/
def c2_t2 : Tree := backpropagation c2_e2.1 c2_e2.2.1.length c2_e2.2.1 c2_s2.1

/-- The oracle cursor after iteration 2. -/
def c2_k2 : Nat := c2_s2.2

/-- Iteration 3 expansion (the selection step descends to [0, 2]). -/
def c2_e3 : Tree × NodeId × Nat := expansion c2_t2 [0, 2] o2 c2_k2

/-- Iteration 3 simulation. -/
def c2_s3 : Int × Nat := simulation .X c2_e3.1 c2_e3.2.1 o2 c2_e3.2.2

/-- The tree after iteration 3. -/
def c2_t3 : Tree := backpropagation c2_e3.1 c2_e3.2.1.length c2_e3.2.1 c2_s3.1

/-- The oracle cursor after iteration 3. -/
def c2_k3 : Nat := c2_s3.2

end MCTSPlayer

namespace MCTSPlayer

/-- Iteration-2 root argmax: the unvisited child [0, 7] is picked. -/
theorem c2_selgo2 : sel_go c2_t1 rootId (3:ℝ) 0 [2, 7] none = some [0, 7] := by
  rw [sel_go_cons_none,
      show uct_of c2_t1 rootId 3 0 2 = uct 3 0 1 1 from rfl,
      sel_go_cons_some,
      show uct_of c2_t1 rootId 3 0 7 = uct 3 0 0 0 from rfl,
      if_pos c2_I2, sel_go_nil]
  rfl

/-- Iteration-2 selection descends to [0, 7]. -/
theorem c2_sel2 : selection c2_t1 (3:ℝ) 0 (c2_t1.length + 1) rootId = [0, 7] := by
  rw [show c2_t1.length = 3 from rfl, selection_step,
      show (findD c2_t1 rootId).child = [2, 7] from rfl,
      if_neg (show ¬([2, 7] : List Int) = [] by decide), c2_selgo2]
  show selection c2_t1 3 0 3 [0, 7] = [0, 7]
  rw [show (3:Nat) = 2 + 1 from rfl, selection_step,
      show (findD c2_t1 [0, 7]).child = ([] : List Int) from rfl, if_pos rfl]

/-- Iteration-3 root argmax: [0, 2] survives the tie-free comparison. -/
theorem c2_selgo3 : sel_go c2_t2 rootId (3:ℝ) 0 [2, 7] none = some [0, 2] := by
  rw [sel_go_cons_none,
      show uct_of c2_t2 rootId 3 0 2 = uct 3 0 1 1 from rfl,
      sel_go_cons_some,
      show uct_of c2_t2 rootId 3 0 7 = uct 3 0 0 1 from rfl,
      if_neg (not_lt.mpr c2_I3), sel_go_nil]
  rfl

/-- Iteration-3 selection descends to [0, 2]. -/
theorem c2_sel3 : selection c2_t2 (3:ℝ) 0 (c2_t2.length + 1) rootId = [0, 2] := by
  rw [show c2_t2.length = 4 from rfl, selection_step,
      show (findD c2_t2 rootId).child = [2, 7] from rfl,
      if_neg (show ¬([2, 7] : List Int) = [] by decide), c2_selgo3]
  show selection c2_t2 3 0 4 [0, 2] = [0, 2]
  rw [show (4:Nat) = 3 + 1 from rfl, selection_step,
      show (findD c2_t2 [0, 2]).child = ([] : List Int) from rfl, if_pos rfl]

/-- Iteration-4 root argmax under the code's UCT: [0, 2] again. -/
theorem c2_selgo4 : sel_go c2_t3 rootId (3:ℝ) 0 [2, 7] none = some [0, 2] := by
  rw [sel_go_cons_none,
      show uct_of c2_t3 rootId 3 0 2 = uct 3 0 2 2 from rfl,
      sel_go_cons_some,
      show uct_of c2_t3 rootId 3 0 7 = uct 3 0 0 1 from rfl,
      if_neg (not_lt.mpr c2_I4), sel_go_nil]
  rfl

/-- Iteration-4 root argmax under the claimed UCT with the root's visit
count 3: [0, 7] instead. -/
theorem c2_selgo4c : sel_go_claimed c2_t3 rootId (3:ℝ) 3 [2, 7] none = some [0, 7] := by
  rw [sel_go_claimed_cons_none,
      show uct_claimed_of c2_t3 rootId 3 3 2 = uct_claimed 3 3 2 2 from rfl,
      sel_go_claimed_cons_some,
      show uct_claimed_of c2_t3 rootId 3 3 7 = uct_claimed 3 3 0 1 from rfl,
      if_pos c2_I4c, sel_go_claimed_nil]
  rfl

end MCTSPlayer

namespace MCTSPlayer

/-- Iteration 1 of the C2 run. -/
theorem c2_step1 : run_iteration (_initialize_tree m2 s2root) o2 0
    = ({ m2 with tree := c2_t1 }, c2_k1) := by
  have hsel : selection (_initialize_tree m2 s2root).tree
      (_initialize_tree m2 s2root).exploration_constant
      (_initialize_tree m2 s2root).total_n
      ((_initialize_tree m2 s2root).tree.length + 1) rootId = rootId :=
    selection_root_only ⟨_, rfl, rfl, rfl, rfl⟩ _ _ _
  simp only [run_iteration]
  rw [hsel]
  rfl

/-- Iteration 2 of the C2 run. -/
theorem c2_step2 : run_iteration { m2 with tree := c2_t1 } o2 c2_k1
    = ({ m2 with tree := c2_t2 }, c2_k2) := by
  simp only [run_iteration]
  rw [show m2.exploration_constant = (3:ℝ) from rfl,
      show m2.total_n = 0 from rfl,
      c2_sel2]
  rfl

/-- Iteration 3 of the C2 run. -/
theorem c2_step3 : run_iteration { m2 with tree := c2_t2 } o2 c2_k2
    = ({ m2 with tree := c2_t3 }, c2_k3) := by
  simp only [run_iteration]
  rw [show m2.exploration_constant = (3:ℝ) from rfl,
      show m2.total_n = 0 from rfl,
      c2_sel3]
  rfl

/-- The first three iterations of the C2 run produce c2_t3, with total_n
still 0. -/
theorem c2_reach :
    run_iters o2 3 (_initialize_tree m2 s2root, 0) = ({ m2 with tree := c2_t3 }, c2_k3) := by
  rw [show run_iters o2 3 (_initialize_tree m2 s2root, 0)
      = run_iters o2 2 (run_iteration (_initialize_tree m2 s2root) o2 0) from rfl,
    c2_step1,
    show run_iters o2 2 ({ m2 with tree := c2_t1 }, c2_k1)
      = run_iters o2 1 (run_iteration { m2 with tree := c2_t1 } o2 c2_k1) from rfl,
    c2_step2,
    show run_iters o2 1 ({ m2 with tree := c2_t2 }, c2_k2)
      = run_iters o2 0 (run_iteration { m2 with tree := c2_t2 } o2 c2_k2) from rfl,
    c2_step3]
  rfl

end MCTSPlayer

namespace MCTSPlayer

/-- Accumulator specification of sel_go: either the seed survives
(nothing later strictly beats it) or the result is the first entry
strictly above everything before it and maximal overall. -/
theorem sel_go_acc_spec (t : Tree) (nid : NodeId) (C : ℝ) (tn : Nat) (cs : List Int) :
    ∀ a : Int,
    (sel_go t nid C tn cs (some (nid ++ [a], uct_of t nid C tn a)) = some (nid ++ [a])
      ∧ ∀ x ∈ cs, uct_of t nid C tn x ≤ uct_of t nid C tn a)
    ∨ (∃ l1 x l2, cs = l1 ++ x :: l2
        ∧ sel_go t nid C tn cs (some (nid ++ [a], uct_of t nid C tn a)) = some (nid ++ [x])
        ∧ uct_of t nid C tn a < uct_of t nid C tn x
        ∧ (∀ y ∈ cs, uct_of t nid C tn y ≤ uct_of t nid C tn x)
        ∧ (∀ y ∈ l1, uct_of t nid C tn y < uct_of t nid C tn x)) := by
  induction cs with
  | nil =>
    intro a
    exact Or.inl ⟨rfl, by simp⟩
  | cons hd tl ih =>
    intro a
    rw [sel_go_cons_some]
    by_cases hlt : uct_of t nid C tn a < uct_of t nid C tn hd
    · rw [if_pos hlt]
      rcases ih hd with ⟨heq, hmax⟩ | ⟨l1, x, l2, hsplit, heq, hv, hmax, hpre⟩
      · refine Or.inr ⟨[], hd, tl, by simp, heq, hlt, ?_, by simp⟩
        intro y hy
        rcases List.mem_cons.mp hy with rfl | hy
        · exact le_refl _
        · exact hmax y hy
      · refine Or.inr ⟨hd :: l1, x, l2, by simp [hsplit], heq, lt_trans hlt hv, ?_, ?_⟩
        · intro y hy
          rcases List.mem_cons.mp hy with rfl | hy
          · exact le_of_lt hv
          · exact hmax y hy
        · intro y hy
          rcases List.mem_cons.mp hy with rfl | hy
          · exact hv
          · exact hpre y hy
    · rw [if_neg hlt]
      rcases ih a with ⟨heq, hmax⟩ | ⟨l1, x, l2, hsplit, heq, hv, hmax, hpre⟩
      · refine Or.inl ⟨heq, ?_⟩
        intro y hy
        rcases List.mem_cons.mp hy with rfl | hy
        · exact le_of_not_lt hlt
        · exact hmax y hy
      · refine Or.inr ⟨hd :: l1, x, l2, by simp [hsplit], heq, hv, ?_, ?_⟩
        · intro y hy
          rcases List.mem_cons.mp hy with rfl | hy
          · exact le_trans (le_of_not_lt hlt) (le_of_lt hv)
          · exact hmax y hy
        · intro y hy
          rcases List.mem_cons.mp hy with rfl | hy
          · exact lt_of_le_of_lt (le_of_not_lt hlt) hv
          · exact hpre y hy

/-- On a nonempty child list sel_go returns the first child attaining the
maximal code UCT. -/
theorem sel_go_spec (t : Tree) (nid : NodeId) (C : ℝ) (tn : Nat) (cs : List Int)
    (hne : cs ≠ []) :
    ∃ l1 a l2, cs = l1 ++ a :: l2
      ∧ sel_go t nid C tn cs none = some (nid ++ [a])
      ∧ (∀ x ∈ cs, uct_of t nid C tn x ≤ uct_of t nid C tn a)
      ∧ (∀ x ∈ l1, uct_of t nid C tn x < uct_of t nid C tn a) := by
  cases cs with
  | nil => exact absurd rfl hne
  | cons hd tl =>
    rw [sel_go_cons_none]
    rcases sel_go_acc_spec t nid C tn tl hd with ⟨heq, hmax⟩ |
      ⟨l1, x, l2, hsplit, heq, hv, hmax, hpre⟩
    · refine ⟨[], hd, tl, by simp, heq, ?_, by simp⟩
      intro y hy
      rcases List.mem_cons.mp hy with rfl | hy
      · exact le_refl _
      · exact hmax y hy
    · refine ⟨hd :: l1, x, l2, by simp [hsplit], heq, ?_, ?_⟩
      · intro y hy
        rcases List.mem_cons.mp hy with rfl | hy
        · exact le_of_lt hv
        · exact hmax y hy
      · intro y hy
        rcases List.mem_cons.mp hy with rfl | hy
        · exact hv
        · exact hpre y hy

/-- One search iteration never writes total_n. -/
theorem run_iteration_total_n (m : MCTS) (o : Nat → Nat) (k : Nat) :
    ((run_iteration m o k).1).total_n = m.total_n := rfl

/-- The whole search loop never writes total_n. -/
theorem run_iters_total_n (o : Nat → Nat) :
    ∀ (n : Nat) (mk : MCTS × Nat), ((run_iters o n mk).1).total_n = mk.1.total_n := by
  intro n
  induction n with
  | zero => intro mk; rfl
  | succ i ih =>
    intro mk
    rw [show run_iters o (i + 1) mk = run_iters o i (run_iteration mk.1 o mk.2) from rfl]
    rw [ih]
    exact run_iteration_total_n mk.1 o mk.2

/-- The selection descent as the claim words it: at each level the child
maximizing uct_claimed is taken, where the log argument is the root
node's accumulated visit count at that point of the search (read from
the tree; it is constant during one descent since backpropagation only
runs afterwards), ties to the first-encountered maximum. -/
noncomputable def selection_claimed (t : Tree) (C : ℝ) : Nat → NodeId → NodeId
  | 0, node_id => node_id
  | fuel + 1, node_id =>
    let nd := findD t node_id
    if nd.child = [] then node_id
    else
      match sel_go_claimed t node_id C (findD t rootId).n nd.child none with
      | some best => selection_claimed t C fuel best
      | none => node_id

/-- Unfolding one step of the claimed descent. -/
theorem selection_claimed_step (t : Tree) (C : ℝ) (fuel : Nat) (nid : NodeId) :
    selection_claimed t C (fuel + 1) nid
      = if (findD t nid).child = [] then nid
        else match sel_go_claimed t nid C (findD t rootId).n (findD t nid).child none with
          | some best => selection_claimed t C fuel best
          | none => nid := rfl

/-- The code's fourth selection descent on c2_t3 ends at [0, 2]. -/
theorem c2_sel4 : selection c2_t3 (3:ℝ) 0 (c2_t3.length + 1) rootId = [0, 2] := by
  rw [show c2_t3.length = 4 from rfl, selection_step,
      show (findD c2_t3 rootId).child = [2, 7] from rfl,
      if_neg (show ¬([2, 7] : List Int) = [] by decide), c2_selgo4]
  show selection c2_t3 3 0 4 [0, 2] = [0, 2]
  rw [show (4:Nat) = 3 + 1 from rfl, selection_step,
      show (findD c2_t3 [0, 2]).child = ([] : List Int) from rfl, if_pos rfl]

/-- Below [0, 7] the claimed descent has the single child [0, 7, 2]. -/
theorem c2_selgo4c_inner :
    sel_go_claimed c2_t3 [0, 7] (3:ℝ) 3 [2] none = some [0, 7, 2] := by
  rw [sel_go_claimed_cons_none, sel_go_claimed_nil]
  rfl

/-- The claimed fourth selection descent on c2_t3 (root visit count 3,
hence log 4) ends at [0, 7, 2], entering the other root child. -/
theorem c2_sel4c : selection_claimed c2_t3 (3:ℝ) (c2_t3.length + 1) rootId = [0, 7, 2] := by
  rw [show c2_t3.length = 4 from rfl, selection_claimed_step,
      show (findD c2_t3 rootId).child = [2, 7] from rfl,
      if_neg (show ¬([2, 7] : List Int) = [] by decide),
      show (findD c2_t3 rootId).n = 3 from rfl, c2_selgo4c]
  show selection_claimed c2_t3 3 4 [0, 7] = [0, 7, 2]
  rw [show (4:Nat) = 3 + 1 from rfl, selection_claimed_step,
      show (findD c2_t3 [0, 7]).child = [2] from rfl,
      if_neg (show ¬([2] : List Int) = [] by decide),
      show (findD c2_t3 rootId).n = 3 from rfl, c2_selgo4c_inner]
  show selection_claimed c2_t3 3 3 [0, 7, 2] = [0, 7, 2]
  rw [show (3:Nat) = 2 + 1 from rfl, selection_claimed_step,
      show (findD c2_t3 [0, 7, 2]).child = ([] : List Int) from rfl, if_pos rfl]

/-- Each level of the code's selection descent moves to the first child
maximizing the code's UCT and continues from it. -/
theorem selection_first_argmax_step (t : Tree) (C : ℝ) (tn fuel : Nat) (nid : NodeId)
    (hne : (findD t nid).child ≠ []) :
    ∃ l1 a l2, (findD t nid).child = l1 ++ a :: l2
      ∧ selection t C tn (fuel + 1) nid = selection t C tn fuel (nid ++ [a])
      ∧ (∀ x ∈ (findD t nid).child, uct_of t nid C tn x ≤ uct_of t nid C tn a)
      ∧ (∀ x ∈ l1, uct_of t nid C tn x < uct_of t nid C tn a) := by
  rcases sel_go_spec t nid C tn (findD t nid).child hne with
    ⟨l1, a, l2, hsplit, heq, hmax, hpre⟩
  refine ⟨l1, a, l2, hsplit, ?_, hmax, hpre⟩
  rw [selection_step, if_neg hne, heq]

end MCTSPlayer

/-- C2 counterexample: a reachable search state where the code's
selection descent and the claimed one choose different root children.
From s2root the first three of m2's four iterations provably build c2_t3
(root visited 3 times, children [0,2] with w=2 n=2 and [0,7] with w=0
n=1) while total_n stays 0 -- so the code's UCT log argument is
log(total_n-clamped-to-1 + 1) = log 2, not the claimed
log(rootVisits + 1) = log 4.  The fourth iteration's full descent then
ends at [0, 2] under the code but enters the other root child under the
claim, ending at [0, 7, 2]; at the root the child argmaxes are [0, 2]
versus [0, 7]. -/
theorem C2_counterexample :
    MCTSPlayer.m2.n_iterations = 4
    ∧ MCTSPlayer.run_iters MCTSPlayer.o2 3
        (MCTSPlayer._initialize_tree MCTSPlayer.m2 MCTSPlayer.s2root, 0)
      = ({ MCTSPlayer.m2 with tree := MCTSPlayer.c2_t3 }, MCTSPlayer.c2_k3)
    ∧ (MCTSPlayer.run_iters MCTSPlayer.o2 3
        (MCTSPlayer._initialize_tree MCTSPlayer.m2 MCTSPlayer.s2root, 0)).1.total_n = 0
    ∧ (MCTSPlayer.findD MCTSPlayer.c2_t3 MCTSPlayer.rootId).n = 3
    ∧ (MCTSPlayer.findD MCTSPlayer.c2_t3 MCTSPlayer.rootId).child = [2, 7]
    ∧ MCTSPlayer.selection MCTSPlayer.c2_t3 MCTSPlayer.m2.exploration_constant
        MCTSPlayer.m2.total_n (MCTSPlayer.c2_t3.length + 1) MCTSPlayer.rootId
      = [0, 2]
    ∧ MCTSPlayer.selection_claimed MCTSPlayer.c2_t3 MCTSPlayer.m2.exploration_constant
        (MCTSPlayer.c2_t3.length + 1) MCTSPlayer.rootId
      = [0, 7, 2]
    ∧ MCTSPlayer.sel_go MCTSPlayer.c2_t3 MCTSPlayer.rootId
        MCTSPlayer.m2.exploration_constant MCTSPlayer.m2.total_n [2, 7] none
      = some [0, 2]
    ∧ MCTSPlayer.sel_go_claimed MCTSPlayer.c2_t3 MCTSPlayer.rootId
        MCTSPlayer.m2.exploration_constant
        ((MCTSPlayer.findD MCTSPlayer.c2_t3 MCTSPlayer.rootId).n) [2, 7] none
      = some [0, 7]
    ∧ ([0, 2] : MCTSPlayer.NodeId) ≠ [0, 7, 2] ∧ ([0, 2] : MCTSPlayer.NodeId) ≠ [0, 7] :=
  ⟨rfl, MCTSPlayer.c2_reach, by rw [MCTSPlayer.c2_reach]; rfl, rfl, rfl,
   MCTSPlayer.c2_sel4, MCTSPlayer.c2_sel4c,
   MCTSPlayer.c2_selgo4, MCTSPlayer.c2_selgo4c, by decide, by decide⟩

/-- C2 amended: at every level of every selection descent the child
chosen (and descended into) is the first one, in child iteration order,
maximizing the code's UCT = w/(n+eps) + C*sqrt(log(T+1)/(n+eps)) where
T is self.total_n if positive and 1 otherwise; and self.total_n is never
written by the search, so it keeps its constructed value (0 in the
source, making the log argument the constant 2) no matter how many
iterations accumulate -- it is not the root's growing visit count. -/
theorem C2_amended :
    (∀ (t : MCTSPlayer.Tree) (C : ℝ) (tn fuel : Nat) (nid : MCTSPlayer.NodeId),
        (MCTSPlayer.findD t nid).child ≠ [] →
      ∃ l1 a l2, (MCTSPlayer.findD t nid).child = l1 ++ a :: l2
        ∧ MCTSPlayer.selection t C tn (fuel + 1) nid
            = MCTSPlayer.selection t C tn fuel (nid ++ [a])
        ∧ (∀ x ∈ (MCTSPlayer.findD t nid).child,
            MCTSPlayer.uct_of t nid C tn x ≤ MCTSPlayer.uct_of t nid C tn a)
        ∧ (∀ x ∈ l1, MCTSPlayer.uct_of t nid C tn x < MCTSPlayer.uct_of t nid C tn a))
    ∧ (∀ (t : MCTSPlayer.Tree) (nid : MCTSPlayer.NodeId) (C : ℝ) (tn : Nat)
        (cs : List Int), cs ≠ [] →
      ∃ l1 a l2, cs = l1 ++ a :: l2
        ∧ MCTSPlayer.sel_go t nid C tn cs none = some (nid ++ [a])
        ∧ (∀ x ∈ cs, MCTSPlayer.uct_of t nid C tn x ≤ MCTSPlayer.uct_of t nid C tn a)
        ∧ (∀ x ∈ l1, MCTSPlayer.uct_of t nid C tn x < MCTSPlayer.uct_of t nid C tn a))
    ∧ (∀ (m : MCTSPlayer.MCTS) (game : TicTacToe) (o : Nat → Nat) (n : Nat),
        ((MCTSPlayer.run_iters o n (MCTSPlayer._initialize_tree m game, 0)).1).total_n
          = m.total_n) :=
  ⟨fun t C tn fuel nid hne => MCTSPlayer.selection_first_argmax_step t C tn fuel nid hne,
   fun t nid C tn cs hne => MCTSPlayer.sel_go_spec t nid C tn cs hne,
   fun m game o n =>
     (MCTSPlayer.run_iters_total_n o n (MCTSPlayer._initialize_tree m game, 0)).trans rfl⟩

/-- C2 amended witness: the descent-step and root-argmax first-maximum
properties instantiated at the reachable tree c2_t3, and the
four-iteration run from s2root ends with total_n still 0. -/
theorem C2_amended_witness :
    (∃ l1 a l2,
        (MCTSPlayer.findD MCTSPlayer.c2_t3 MCTSPlayer.rootId).child = l1 ++ a :: l2
      ∧ MCTSPlayer.selection MCTSPlayer.c2_t3 (3:ℝ) 0 (4 + 1) MCTSPlayer.rootId
          = MCTSPlayer.selection MCTSPlayer.c2_t3 (3:ℝ) 0 4 (MCTSPlayer.rootId ++ [a])
      ∧ (∀ x ∈ (MCTSPlayer.findD MCTSPlayer.c2_t3 MCTSPlayer.rootId).child,
          MCTSPlayer.uct_of MCTSPlayer.c2_t3 MCTSPlayer.rootId 3 0 x
            ≤ MCTSPlayer.uct_of MCTSPlayer.c2_t3 MCTSPlayer.rootId 3 0 a)
      ∧ (∀ x ∈ l1,
          MCTSPlayer.uct_of MCTSPlayer.c2_t3 MCTSPlayer.rootId 3 0 x
            < MCTSPlayer.uct_of MCTSPlayer.c2_t3 MCTSPlayer.rootId 3 0 a))
    ∧ (∃ l1 a l2, ([2, 7] : List Int) = l1 ++ a :: l2
      ∧ MCTSPlayer.sel_go MCTSPlayer.c2_t3 MCTSPlayer.rootId (3:ℝ) 0 [2, 7] none
          = some (MCTSPlayer.rootId ++ [a])
      ∧ (∀ x ∈ ([2, 7] : List Int),
          MCTSPlayer.uct_of MCTSPlayer.c2_t3 MCTSPlayer.rootId 3 0 x
            ≤ MCTSPlayer.uct_of MCTSPlayer.c2_t3 MCTSPlayer.rootId 3 0 a)
      ∧ (∀ x ∈ l1,
          MCTSPlayer.uct_of MCTSPlayer.c2_t3 MCTSPlayer.rootId 3 0 x
            < MCTSPlayer.uct_of MCTSPlayer.c2_t3 MCTSPlayer.rootId 3 0 a))
    ∧ (MCTSPlayer.run_iters MCTSPlayer.o2 4
        (MCTSPlayer._initialize_tree MCTSPlayer.m2 MCTSPlayer.s2root, 0)).1.total_n = 0 :=
  ⟨C2_amended.1 MCTSPlayer.c2_t3 3 0 4 MCTSPlayer.rootId (by decide),
   C2_amended.2.1 MCTSPlayer.c2_t3 MCTSPlayer.rootId 3 0 [2, 7] (by decide),
   C2_amended.2.2 MCTSPlayer.m2 MCTSPlayer.s2root MCTSPlayer.o2 4⟩
